import Mathlib

/-!
# Verification of the openclaw-china channel plugins

A shallow embedding, in Lean 4, of the parts of the repository that the
specification's claims are about:

* the CLI install hint (`src/packages/shared/src/cli/install-hint.ts`);
* the QQ-bot outbound adapter (`src/extensions/qqbot/src/outbound.ts`);
* the DingTalk outbound adapter (`src/extensions/dingtalk/src/outbound.ts`);
* the WeCom webhook core (CryptoCodec, SignatureVerifier, StreamSessionTable,
  WebhookDispatcher, OutboundStreamBridge).  The WeCom core's own sources
  (`crypto.js`, `monitor.js`, `channel.js`) are not part of the file set, only
  their integration test is, so these components are modelled from the
  specification's description (each such definition says so in its doc
  comment).

Pure functions of the TypeScript source become Lean functions; the mutable
pieces of state (the install-hint "shown" flag, the stream-session table)
become explicit state values threaded through the operations; asynchronous
network calls become oracle parameters so that the embedding stays
deterministic; code that can throw returns `Except`.
-/

set_option autoImplicit false

/-! ## The CLI install hint (`install-hint.ts`)

JavaScript configuration values are untyped; `isRecord` distinguishes plain
objects from `null`, arrays and primitives.  `JsValue` mirrors exactly that
classification: `vobj` is the one constructor `isRecord` accepts. -/

namespace InstallHint

/-- An untyped JavaScript value, as far as `install-hint.ts` inspects one. -/
inductive JsValue where
  | vnull
  | vundef
  | vbool (b : Bool)
  | vnum (n : Int)
  | vstr (s : String)
  | varr (xs : List JsValue)
  | vobj (fields : List (String × JsValue))

/-- Property access `obj[key]` on a JS object: the first binding wins,
`none` models `undefined`. -/
def lookupField (key : String) : List (String × JsValue) → Option JsValue
  | [] => none
  | (k, v) :: rest => if k = key then some v else lookupField key rest

/-- `isRecord(value)`: a JS object that is neither `null` nor an array. -/
def isRecord : JsValue → Bool
  | .vobj _ => true
  | _ => false

/-- `SUPPORTED_CHANNELS` from `install-hint.ts`. -/
def SUPPORTED_CHANNELS : List String :=
  ["dingtalk", "feishu-china", "wecom", "wecom-app", "qqbot"]

/-- `channels[channelId]` is a record whose `enabled` field is exactly
`true` (the JS `===` comparison). -/
def channelEnabledExactly (chans : List (String × JsValue)) (channelId : String) : Bool :=
  match lookupField channelId chans with
  | some (.vobj cf) =>
    match lookupField "enabled" cf with
    | some (.vbool true) => true
    | _ => false
  | _ => false

/-- `hasAnyEnabledChinaChannel(config)` from `install-hint.ts`. -/
def hasAnyEnabledChinaChannel (config : JsValue) : Bool :=
  match config with
  | .vobj fields =>
    match lookupField "channels" fields with
    | some (.vobj chans) => SUPPORTED_CHANNELS.any (channelEnabledExactly chans)
    | _ => false
  | _ => false

/-- Which logging methods `api.logger` offers (`api.logger?.info`,
`api.logger?.warn`). -/
structure Logger where
  hasInfo : Bool
  hasWarn : Bool

/-- The hint text printed by `showChinaInstallHint` (ANSI escapes kept). -/
def hintLines : List String :=
  let reset := "\u001b[0m"
  let bold := "\u001b[1m"
  let link := "\u001b[1;4;96m"
  let border := "\u001b[92m"
  let repo := "https://github.com/BytePioneer-AI/moltbot-china"
  let bar := String.mk (List.replicate 52 '━')
  [ border ++ bar ++ reset,
    "  OpenClaw China Channels 已就绪!",
    border ++ bar ++ reset,
    "",
    "项目仓库:",
    "  " ++ link ++ repo ++ reset,
    "",
    "⭐ 如果这个项目对你有帮助，请给我们一个 Star！⭐",
    "",
    "下一步（配置引导）:",
    "  1. 运行交互式配置向导",
    "     " ++ bold ++ "openclaw china setup" ++ reset,
    "  2. 按提示填写渠道凭据并保存配置",
    "  3. 启动网关并观察日志",
    "     " ++ "openclaw gateway --port 18789 --verbose" ]

/-- `showChinaInstallHint(api)`.  The process-global "shown" flag becomes an
explicit `Bool` state; the result is the new flag value paired with the lines
actually written to the logger. -/
def showChinaInstallHint (shown : Bool) (config : JsValue) (lg : Logger) :
    Bool × List String :=
  if shown || hasAnyEnabledChinaChannel config then (shown, [])
  else if lg.hasInfo then (true, hintLines)
  else if lg.hasWarn then (true, hintLines)
  else (true, [])

/-- A sequence of `showChinaInstallHint` calls in one process, returning the
output of each call. -/
def runHintCalls (shown : Bool) : List (JsValue × Logger) → List (List String)
  | [] => []
  | (c, l) :: rest =>
    let r := showChinaInstallHint shown c l
    r.2 :: runHintCalls r.1 rest

end InstallHint

/-! ## The QQ-bot outbound adapter (`extensions/qqbot/src/outbound.ts`)

The adapter's network calls (`getAccessToken`, the send and upload REST
wrappers in `client.js`) and `loadMediaBuffer` are asynchronous effects; the
embedding passes them in as an oracle (`NetEnv`) and returns, next to the
result, the list of oracle operations actually invoked, so "no network
request was issued" is the statement that this list is empty.  A rejected
promise is `Except.error`; a fulfilled one is `Except.ok`.
`QQBotConfigSchema.safeParse` lives outside the file set and is passed in as
the `parse` parameter (`parsed?.success ? parsed.data : rawCfg` keeps the raw
config when parsing fails, which `effectiveCfg` mirrors). -/

namespace QQBot

/-- `QQBotConfig` as `outbound.ts` reads it; `Option` models fields that may
be `undefined`. -/
structure QQBotConfig where
  appId : Option String
  clientSecret : Option String
  markdownSupport : Option Bool

/-- `OutboundConfig`: `cfg.channels?.qqbot`. -/
structure OutboundConfig where
  qqbot : Option QQBotConfig

/-- JS falsiness of a possibly-`undefined` string: `undefined` and `""` are
falsy (the `!qqCfg.appId` test). -/
def falsy : Option String → Bool
  | none => true
  | some s => s.isEmpty

/-- `const qqCfg = parsed?.success ? parsed.data : rawCfg`. -/
def effectiveCfg (parse : QQBotConfig → Option QQBotConfig) (cfg : OutboundConfig) :
    Option QQBotConfig :=
  match cfg.qqbot with
  | none => none
  | some raw => some ((parse raw).getD raw)

/-- `stripPrefix(value, prefix)` from `outbound.ts`. -/
def stripPre (value pre : String) : String :=
  if value.startsWith pre then value.drop pre.length else value

inductive TargetKind where
  | c2c
  | group
  | channel
deriving DecidableEq

/-- `parseTarget(to)` from `outbound.ts`. -/
def parseTarget (dest : String) : TargetKind × String :=
  let raw := (stripPre dest.trim "qqbot:")
  if raw.startsWith "group:" then (.group, raw.drop "group:".length)
  else if raw.startsWith "channel:" then (.channel, raw.drop "channel:".length)
  else if raw.startsWith "user:" then (.c2c, raw.drop "user:".length)
  else if raw.startsWith "c2c:" then (.c2c, raw.drop "c2c:".length)
  else (.c2c, raw)

inductive MediaFileType where
  | image
  | video
  | voice
  | file
deriving DecidableEq

/-- `resolveMediaFileType` (its `detectMediaType` import is an oracle). -/
def resolveMediaFileType (detect : String → String) (fileName : String) : MediaFileType :=
  let t := detect fileName
  if t = "image" then .image
  else if t = "video" then .video
  else if t = "audio" then .voice
  else .file

/-- `QQBotSendResult`: every field but `channel` may be absent. -/
structure QQBotSendResult where
  channel : String
  messageId : Option String := none
  timestamp : Option String := none
  error : Option String := none
deriving DecidableEq

/-- The error-shaped result `{ channel: "qqbot", error }`. -/
def errResult (e : String) : QQBotSendResult :=
  { channel := "qqbot", error := some e }

/-- The oracle for the adapter's asynchronous collaborators. -/
structure NetEnv where
  getAccessToken : String → String → Except String String
  sendC2CMessage : String → String → String → Option String → Bool →
    Except String (String × String)
  sendGroupMessage : String → String → String → Option String → Bool →
    Except String (String × String)
  sendChannelMessage : String → String → String → Option String →
    Except String (String × String)
  loadMediaBuffer : String → Except String (String × String)
  uploadC2CMedia : String → String → MediaFileType → String → Except String String
  uploadGroupMedia : String → String → MediaFileType → String → Except String String
  sendC2CMediaMessage : String → String → String → Except String (String × String)
  sendGroupMediaMessage : String → String → String → Except String (String × String)
  detectMediaType : String → String

/-- `qqbotOutbound.sendText`.  The second component lists the oracle
operations invoked.  `getAccessToken` is awaited outside the `try` block, so
its rejection propagates (`Except.error`); failures of the send calls are
caught and become `{ channel: "qqbot", error }` results. -/
def sendTextQ (parse : QQBotConfig → Option QQBotConfig) (net : NetEnv)
    (cfg : OutboundConfig) (dest text : String) (replyToId : Option String) :
    Except String QQBotSendResult × List String :=
  match effectiveCfg parse cfg with
  | none => (.ok (errResult "QQBot channel not configured"), [])
  | some qqCfg =>
    if falsy qqCfg.appId || falsy qqCfg.clientSecret then
      (.ok (errResult "QQBot not configured (missing appId/clientSecret)"), [])
    else
      let target := parseTarget dest
      match net.getAccessToken (qqCfg.appId.getD "") (qqCfg.clientSecret.getD "") with
      | .error e => (.error e, ["getAccessToken"])
      | .ok tok =>
        let markdown := qqCfg.markdownSupport.getD false
        match target.1 with
        | .group =>
          match net.sendGroupMessage tok target.2 text replyToId markdown with
          | .ok r => (.ok { channel := "qqbot", messageId := some r.1, timestamp := some r.2 },
              ["getAccessToken", "sendGroupMessage"])
          | .error e => (.ok (errResult e), ["getAccessToken", "sendGroupMessage"])
        | .channel =>
          match net.sendChannelMessage tok target.2 text replyToId with
          | .ok r => (.ok { channel := "qqbot", messageId := some r.1, timestamp := some r.2 },
              ["getAccessToken", "sendChannelMessage"])
          | .error e => (.ok (errResult e), ["getAccessToken", "sendChannelMessage"])
        | .c2c =>
          match net.sendC2CMessage tok target.2 text replyToId markdown with
          | .ok r => (.ok { channel := "qqbot", messageId := some r.1, timestamp := some r.2 },
              ["getAccessToken", "sendC2CMessage"])
          | .error e => (.ok (errResult e), ["getAccessToken", "sendC2CMessage"])

/-- The `text?.trim() ? text + "\n" + mediaUrl : mediaUrl` fallback used for
channel targets in `sendMedia`. -/
def channelFallbackText (text : Option String) (url : String) : String :=
  match text with
  | some t => if t.trim.isEmpty then url else t ++ "\n" ++ url
  | none => url

/-- `qqbotOutbound.sendMedia`.  The media path runs inside one `try` block:
any rejection of `loadMediaBuffer`, `getAccessToken`, the uploads or the
media sends is caught and becomes an error result. -/
def sendMediaQ (parse : QQBotConfig → Option QQBotConfig) (net : NetEnv)
    (cfg : OutboundConfig) (dest : String) (text mediaUrl : Option String) :
    Except String QQBotSendResult × List String :=
  match mediaUrl with
  | none =>
    let fallbackText := (text.map String.trim).getD ""
    if fallbackText.isEmpty then
      (.ok (errResult "mediaUrl is required for sendMedia"), [])
    else
      sendTextQ parse net cfg dest fallbackText none
  | some url =>
    match effectiveCfg parse cfg with
    | none => (.ok (errResult "QQBot channel not configured"), [])
    | some qqCfg =>
      if falsy qqCfg.appId || falsy qqCfg.clientSecret then
        (.ok (errResult "QQBot not configured (missing appId/clientSecret)"), [])
      else
        let target := parseTarget dest
        if target.1 = TargetKind.channel then
          sendTextQ parse net cfg dest (channelFallbackText text url) none
        else
          match net.loadMediaBuffer url with
          | .error e => (.ok (errResult e), ["loadMediaBuffer"])
          | .ok r =>
            let fileType := resolveMediaFileType net.detectMediaType r.2
            match net.getAccessToken (qqCfg.appId.getD "") (qqCfg.clientSecret.getD "") with
            | .error e => (.ok (errResult e), ["loadMediaBuffer", "getAccessToken"])
            | .ok tok =>
              match target.1 with
              | .group =>
                match net.uploadGroupMedia tok target.2 fileType r.1 with
                | .error e => (.ok (errResult e),
                    ["loadMediaBuffer", "getAccessToken", "uploadGroupMedia"])
                | .ok info =>
                  match net.sendGroupMediaMessage tok target.2 info with
                  | .error e => (.ok (errResult e),
                      ["loadMediaBuffer", "getAccessToken", "uploadGroupMedia",
                       "sendGroupMediaMessage"])
                  | .ok s =>
                    (.ok { channel := "qqbot", messageId := some s.1, timestamp := some s.2 },
                      ["loadMediaBuffer", "getAccessToken", "uploadGroupMedia",
                       "sendGroupMediaMessage"])
              | _ =>
                match net.uploadC2CMedia tok target.2 fileType r.1 with
                | .error e => (.ok (errResult e),
                    ["loadMediaBuffer", "getAccessToken", "uploadC2CMedia"])
                | .ok info =>
                  match net.sendC2CMediaMessage tok target.2 info with
                  | .error e => (.ok (errResult e),
                      ["loadMediaBuffer", "getAccessToken", "uploadC2CMedia",
                       "sendC2CMediaMessage"])
                  | .ok s =>
                    (.ok { channel := "qqbot", messageId := some s.1, timestamp := some s.2 },
                      ["loadMediaBuffer", "getAccessToken", "uploadC2CMedia",
                       "sendC2CMediaMessage"])

end QQBot

/-! ## The DingTalk outbound adapter (`extensions/dingtalk/src/outbound.ts`)

`sendMessageDingtalk` (in `send.ts`) and `sendMediaDingtalk` (in `media.js`)
perform HTTP calls; both are oracles here.  `dingtalkOutbound.sendMedia`
wraps only the media call in `try/catch`: on failure it logs through
`console.error` and itself sends the text-link fallback.  The second
component of the result collects the `console.error` messages, so "the error
was swallowed (logged fire-and-forget) at the point of occurrence" is
visible in the embedding. -/

namespace DingTalk

structure DingtalkConfig where
  clientId : Option String
  clientSecret : Option String

/-- `SendResult` from `outbound.ts`: no failure variant exists in the type. -/
structure SendResult where
  channel : String
  messageId : String
  chatId : Option String := none
  conversationId : Option String := none
deriving DecidableEq

inductive ChatType where
  | direct
  | group
deriving DecidableEq

/-- `parseTarget(to)` from `outbound.ts`. -/
def parseTarget (dest : String) : String × ChatType :=
  if dest.startsWith "chat:" then (dest.drop 5, .group)
  else if dest.startsWith "user:" then (dest.drop 5, .direct)
  else (dest, .direct)

/-- Oracle for the two HTTP senders: `(to, text, chatType)` resp.
`(to, mediaUrl, chatType)`, returning `(messageId, conversationId)` or a
rejection. -/
structure DingtalkNet where
  sendMessage : String → String → ChatType → Except String (String × String)
  sendMediaCall : String → String → ChatType → Except String (String × String)

/-- `dingtalkOutbound.sendMedia`.  `now` stands for `Date.now()`.  The result
pairs the returned (or thrown) value with the list of `console.error`
messages emitted along the way. -/
def sendMediaD (net : DingtalkNet) (cfgOpt : Option DingtalkConfig) (dest : String)
    (text mediaUrl : Option String) (now : Nat) :
    Except String SendResult × List String :=
  match cfgOpt with
  | none => (.error "DingTalk channel not configured", [])
  | some cfg =>
    let _ := cfg
    let t := parseTarget dest
    let preSend :=
      match text with
      | some tx => if tx.trim.isEmpty then Except.ok () else
          match net.sendMessage t.1 tx t.2 with
          | .ok _ => Except.ok ()
          | .error e => Except.error e
      | none => Except.ok ()
    match preSend with
    | .error e => (.error e, [])
    | .ok _ =>
      match mediaUrl with
      | some url =>
        match net.sendMediaCall t.1 url t.2 with
        | .ok r =>
          (.ok { channel := "dingtalk", messageId := r.1, chatId := some r.2,
                 conversationId := some r.2 }, [])
        | .error err =>
          let logged := "[dingtalk] sendMediaDingtalk failed: " ++ err
          let fallbackText := "📎 " ++ url
          match net.sendMessage t.1 fallbackText t.2 with
          | .ok r =>
            (.ok { channel := "dingtalk", messageId := r.1, chatId := some r.2,
                   conversationId := some r.2 }, [logged])
          | .error e => (.error e, [logged])
      | none =>
        let mid := match text with
          | some tx => if tx.trim.isEmpty then "empty" else "text_" ++ toString now
          | none => "empty"
        (.ok { channel := "dingtalk", messageId := mid, chatId := some t.1,
               conversationId := some t.1 }, [])

end DingTalk

/-! ## The WeCom CryptoCodec

Modelled from the spec: the WeCom crypto source (`crypto.js`, exporting
`encryptWecomPlaintext` / `decryptWecomEncrypted`) is not in the file set;
only its callers and its integration test are.  The spec describes the codec
as: random 16-byte prefix ‖ 4-byte big-endian length ‖ UTF-8 plaintext ‖
receiver id, byte-value padding to the 16-byte block size (a full pad block
when already aligned), CBC with the first 16 bytes of the base64-decoded
encoding key as both key and IV, then base64.  The block cipher itself is a
parameter: an arbitrary keyed block permutation `E` with inverse `D`, so
every theorem quantifies over the cipher.  Bytes are `Nat`s below 256;
base64 and UTF-8 are implemented concretely so that the whole pipeline is
executable. -/

namespace Wecom

/-! ### Base64 -/

def b64Alphabet : List Char :=
  "ABCDEFGHIJKLMNOPQRSTUVWXYZabcdefghijklmnopqrstuvwxyz0123456789+/".data

def b64Char (i : Nat) : Char := b64Alphabet.getD i '?'

def b64Index (c : Char) : Option Nat :=
  if b64Alphabet.indexOf c < b64Alphabet.length then some (b64Alphabet.indexOf c) else none

/-- Base64-encode a byte list (bytes are `Nat`s below 256). -/
def b64EncodeBytes : List Nat → List Char
  | [] => []
  | [a] => [b64Char (a / 4), b64Char (a % 4 * 16), '=', '=']
  | [a, b] => [b64Char (a / 4), b64Char (a % 4 * 16 + b / 16), b64Char (b % 16 * 4), '=']
  | a :: b :: c :: rest =>
    b64Char (a / 4) :: b64Char (a % 4 * 16 + b / 16) :: b64Char (b % 16 * 4 + c / 64) ::
      b64Char (c % 64) :: b64EncodeBytes rest

/-- Base64-decode; `none` on anything that is not well-formed base64. -/
def b64DecodeBytes : List Char → Option (List Nat)
  | [] => some []
  | c1 :: c2 :: c3 :: c4 :: rest =>
    match b64Index c1, b64Index c2 with
    | some i1, some i2 =>
      if c3 = '=' then
        if c4 = '=' ∧ rest = [] then some [i1 * 4 + i2 / 16] else none
      else
        match b64Index c3 with
        | some i3 =>
          if c4 = '=' then
            if rest = [] then some [i1 * 4 + i2 / 16, i2 % 16 * 16 + i3 / 4] else none
          else
            match b64Index c4, b64DecodeBytes rest with
            | some i4, some tail =>
              some ((i1 * 4 + i2 / 16) :: (i2 % 16 * 16 + i3 / 4) :: (i3 % 4 * 64 + i4) :: tail)
            | _, _ => none
        | none => none
    | _, _ => none
  | _ => none

/-! ### UTF-8 -/

/-- UTF-8 encoding of one character. -/
def utf8EncChar (c : Char) : List Nat :=
  let n := c.toNat
  if n < 0x80 then [n]
  else if n < 0x800 then [0xC0 + n / 64, 0x80 + n % 64]
  else if n < 0x10000 then [0xE0 + n / 4096, 0x80 + n / 64 % 64, 0x80 + n % 64]
  else [0xF0 + n / 262144, 0x80 + n / 4096 % 64, 0x80 + n / 64 % 64, 0x80 + n % 64]

def utf8Enc (cs : List Char) : List Nat := (cs.map utf8EncChar).flatten

/-- The UTF-8 bytes of a string. -/
def utf8Bytes (s : String) : List Nat := utf8Enc s.data

/-- Decode one UTF-8 character from the front of a byte list (lenient: no
overlong/surrogate checks, which the round-trip and integrity statements do
not depend on). -/
def utf8DecodeOne : List Nat → Option (Char × List Nat)
  | [] => none
  | b :: rest =>
    if b < 0x80 then some (Char.ofNat b, rest)
    else if b < 0xC0 then none
    else if b < 0xE0 then
      match rest with
      | b1 :: rest1 =>
        if 0x80 ≤ b1 ∧ b1 < 0xC0 then
          some (Char.ofNat ((b - 0xC0) * 64 + (b1 - 0x80)), rest1)
        else none
      | [] => none
    else if b < 0xF0 then
      match rest with
      | b1 :: b2 :: rest2 =>
        if (0x80 ≤ b1 ∧ b1 < 0xC0) ∧ (0x80 ≤ b2 ∧ b2 < 0xC0) then
          some (Char.ofNat ((b - 0xE0) * 4096 + (b1 - 0x80) * 64 + (b2 - 0x80)), rest2)
        else none
      | _ => none
    else if b < 0xF8 then
      match rest with
      | b1 :: b2 :: b3 :: rest3 =>
        if (0x80 ≤ b1 ∧ b1 < 0xC0) ∧ (0x80 ≤ b2 ∧ b2 < 0xC0) ∧ (0x80 ≤ b3 ∧ b3 < 0xC0) then
          some (Char.ofNat ((b - 0xF0) * 262144 + (b1 - 0x80) * 4096 +
            (b2 - 0x80) * 64 + (b3 - 0x80)), rest3)
        else none
      | _ => none
    else none

/-- UTF-8 decoding driver; the `Nat` fuel (instantiated with the byte count)
keeps the recursion structural. -/
def utf8DecAux : Nat → List Nat → Option (List Char)
  | _, [] => some []
  | 0, _ :: _ => none
  | n + 1, b :: rest =>
    match utf8DecodeOne (b :: rest) with
    | none => none
    | some cr => (utf8DecAux n cr.2).map (fun cs => cr.1 :: cs)

/-- UTF-8 decoding of a byte list. -/
def utf8Dec (l : List Nat) : Option (List Char) := utf8DecAux l.length l

/-! ### CBC mode over an abstract 16-byte block cipher -/

/-- Pointwise XOR of two byte lists. -/
def xorBytes (a b : List Nat) : List Nat := List.zipWith (fun x y => x ^^^ y) a b

/-- Split a byte list into 16-byte blocks; the `Nat` fuel (instantiated with
the list length) keeps the recursion structural. -/
def chunk16h : Nat → List Nat → List (List Nat)
  | _, [] => []
  | 0, _ :: _ => []
  | n + 1, a :: rest => ((a :: rest).take 16) :: chunk16h n ((a :: rest).drop 16)

/-- Split a byte list into 16-byte blocks. -/
def chunk16 (l : List Nat) : List (List Nat) := chunk16h l.length l

/-- CBC encryption: each block is XORed with the previous ciphertext block
(initially the IV) before entering the cipher `E`. -/
def cbcEnc (E : List Nat → List Nat) (prev : List Nat) : List (List Nat) → List (List Nat)
  | [] => []
  | b :: rest =>
    let c := E (xorBytes prev b)
    c :: cbcEnc E c rest

/-- CBC decryption with the inverse cipher `D`. -/
def cbcDec (D : List Nat → List Nat) (prev : List Nat) : List (List Nat) → List (List Nat)
  | [] => []
  | c :: rest => xorBytes prev (D c) :: cbcDec D c rest

/-! ### Padding, length field, and the codec -/

/-- Byte-value padding amount for a message of `n` bytes: in `[1, 16]`, a
full block when already aligned. -/
def padLen (n : Nat) : Nat := 16 - n % 16

/-- 4-byte big-endian length field. -/
def lenBytes4 (n : Nat) : List Nat :=
  [n / 2 ^ 24 % 256, n / 2 ^ 16 % 256, n / 2 ^ 8 % 256, n % 256]

def decodeLen4 (b0 b1 b2 b3 : Nat) : Nat :=
  b0 * 2 ^ 24 + b1 * 2 ^ 16 + b2 * 2 ^ 8 + b3

/-- Remove and verify the byte-value padding: the count must be in
`[1, 16]` and all padding bytes equal to it. -/
def stripPadding (padded : List Nat) : Option (List Nat) :=
  match padded.getLast? with
  | none => none
  | some p =>
    if 1 ≤ p ∧ p ≤ 16 ∧ (padded.drop (padded.length - p)).all (· = p) then
      some (padded.take (padded.length - p))
    else none

/-- Split `prefix ‖ length ‖ message ‖ receiver` and verify the declared
length and the trailing receiver id. -/
def parseContent (recvBytes : List Nat) (content : List Nat) : Option (List Nat) :=
  match content.drop 16 with
  | b0 :: b1 :: b2 :: b3 :: rest =>
    let n := decodeLen4 b0 b1 b2 b3
    if (rest.take n).length = n ∧ rest.drop n = recvBytes then some (rest.take n) else none
  | _ => none

/-- Modelled from the spec: the base64 decoding of the 43-character
`encodingAESKey` (padded to a full base64 quantum). -/
def decodeEncodingKey (encodingAESKey : String) : Option (List Nat) :=
  b64DecodeBytes (encodingAESKey.data ++ ['='])

/-- Modelled from the spec: `encryptWecomPlaintext` from the missing
`crypto.js`.  `E` is the keyed block cipher, `prefix16` the random 16-byte
prefix (randomness is an input here). -/
def encryptWecomPlaintext (E : List Nat → List Nat → List Nat)
    (encodingAESKey receiveId : String) (prefix16 : List Nat) (plaintext : String) :
    Option String :=
  match decodeEncodingKey encodingAESKey with
  | none => none
  | some kb =>
    let aesKey := kb.take 16
    let msg := utf8Bytes plaintext
    let full := prefix16 ++ lenBytes4 msg.length ++ msg ++ utf8Bytes receiveId
    let padded := full ++ List.replicate (padLen full.length) (padLen full.length)
    some (String.mk (b64EncodeBytes (cbcEnc (E aesKey) aesKey (chunk16 padded)).flatten))

/-- Modelled from the spec: `decryptWecomEncrypted` from the missing
`crypto.js`.  Any failed check yields `none` (`DecryptionFailure`). -/
def decryptWecomEncrypted (D : List Nat → List Nat → List Nat)
    (encodingAESKey receiveId : String) (ct : String) : Option String :=
  match decodeEncodingKey encodingAESKey with
  | none => none
  | some kb =>
    let aesKey := kb.take 16
    (b64DecodeBytes ct.data).bind (fun cipher =>
      if cipher.length % 16 = 0 ∧ cipher ≠ [] then
        (stripPadding (cbcDec (D aesKey) aesKey (chunk16 cipher)).flatten).bind
          (fun content =>
            (parseContent (utf8Bytes receiveId) content).bind (fun msgBytes =>
              (utf8Dec msgBytes).map (fun cs => String.mk cs)))
      else none)

/-- XOR byte `i` of the underlying ciphertext bytes with 1 and re-encode:
a single-byte flip of the ciphertext. -/
def flipCipherByte (ct : String) (i : Nat) : String :=
  match b64DecodeBytes ct.data with
  | none => ct
  | some bs => String.mk (b64EncodeBytes (bs.set i (bs.getD i 0 ^^^ 1)))

/-- The identity block cipher: a degenerate but legal instantiation of the
cipher parameter, used for concrete evaluations. -/
def idCipher : List Nat → List Nat → List Nat := fun _ b => b

end Wecom

/-! ## The WeCom SignatureVerifier

Modelled from the spec: `computeWecomMsgSignature` lives in the missing
`crypto.js`.  The spec: lexicographically sort the four strings, concatenate,
hash with a fixed one-way digest, hex-encode; `verify` recomputes and
compares.  The digest is a parameter `digest : String → List Nat` (its byte
output is hex-encoded here), so theorems quantify over the digest. -/

namespace WecomSig

def nibbleChar (n : Nat) : Char := "0123456789abcdef".data.getD n '?'

def byteHex (b : Nat) : List Char := [nibbleChar (b / 16), nibbleChar (b % 16)]

/-- Lower-case hex encoding of a digest byte list. -/
def hexEncode (bs : List Nat) : String := String.mk (bs.map byteHex).flatten

/-- Sort the strings lexicographically and concatenate. -/
def concatSorted (xs : List String) : String :=
  String.join (xs.mergeSort (fun a b => decide (a ≤ b)))

/-- The signature over a list of inputs: sort, concatenate, digest,
hex-encode. -/
def signList (digest : String → List Nat) (xs : List String) : String :=
  hexEncode (digest (concatSorted xs))

/-- Modelled from the spec: `computeWecomMsgSignature(token, timestamp,
nonce, encrypt)`. -/
def computeWecomMsgSignature (digest : String → List Nat)
    (token timestamp nonce msgEncrypt : String) : String :=
  hexEncode (digest (concatSorted [token, timestamp, nonce, msgEncrypt]))

/-- Modelled from the spec: signature verification recomputes and compares. -/
def verifyWecomMsgSignature (digest : String → List Nat)
    (token timestamp nonce msgEncrypt given : String) : Bool :=
  given == computeWecomMsgSignature digest token timestamp nonce msgEncrypt

/-- Replace character `i` of a string (a single-character mutation when the
new character differs from the old one). -/
def mutateStr (s : String) (i : Nat) (c : Char) : String := String.mk (s.data.set i c)

end WecomSig

/-! ## The StreamSessionTable

Modelled from the spec: the session registry lives in the missing
`monitor.js`; the spec (§3, §4.3) fixes its data model and operations.
The table is an association list keyed by stream id (a counter here — the
spec only asks for opacity, which does not affect the claims), with a drain
cursor per session as §9 prescribes.  Each operation consumes and returns
the whole table, making the atomic "close prior, create new" of `open`
explicit. -/

namespace Streams

inductive SessionStatus where
  | opened
  | closed
deriving DecidableEq

/-- `StreamSession` from the spec's data model. -/
structure Session where
  accountId : String
  target : String
  chunks : List String
  cursor : Nat
  status : SessionStatus
  createdAt : Nat
  lastAccess : Nat
deriving DecidableEq

/-- The session table: sessions keyed by stream id, plus the id counter. -/
structure Table where
  sessions : List (Nat × Session)
  nextId : Nat
deriving DecidableEq

def emptyTable : Table := ⟨[], 0⟩

/-- Look a session up by stream id. -/
def lookupL (l : List (Nat × Session)) (id : Nat) : Option Session :=
  (l.find? (fun p => p.1 == id)).map (·.2)

def lookupT (t : Table) (id : Nat) : Option Session := lookupL t.sessions id

/-- Replace the session stored under `id`. -/
def updateL (l : List (Nat × Session)) (id : Nat) (s' : Session) : List (Nat × Session) :=
  l.map (fun p => if p.1 = id then (id, s') else p)

/-- Close a session when it is the open one for `(acc, tgt)`; identity
otherwise. -/
def closeMatching (acc tgt : String) (p : Nat × Session) : Nat × Session :=
  if p.2.accountId = acc ∧ p.2.target = tgt ∧ p.2.status = SessionStatus.opened then
    (p.1, { p.2 with status := .closed })
  else p

/-- `open(accountId, target) -> streamId`: atomically close any open session
for the pair and create a fresh one. -/
def openStream (t : Table) (acc tgt : String) (now : Nat) : Table × Nat :=
  let sid := t.nextId
  (⟨(sid, ⟨acc, tgt, [], 0, .opened, now, now⟩) :: t.sessions.map (closeMatching acc tgt),
    sid + 1⟩, sid)

/-- `append(streamId, chunk) -> bool`: `false` when the session is missing
or closed; otherwise append to the ordered chunk sequence and refresh the
last-access time. -/
def appendChunk (t : Table) (id : Nat) (chunk : String) (now : Nat) : Table × Bool :=
  match lookupT t id with
  | none => (t, false)
  | some s =>
    if s.status = .closed then (t, false)
    else
      (⟨updateL t.sessions id { s with chunks := s.chunks ++ [chunk], lastAccess := now },
        t.nextId⟩, true)

/-- `drain(streamId) -> (chunks, status)`: the chunks accumulated since the
previous drain, and the current status; advances the drain cursor. -/
def drainStream (t : Table) (id : Nat) (now : Nat) :
    Table × Option (List String × SessionStatus) :=
  match lookupT t id with
  | none => (t, none)
  | some s =>
    (⟨updateL t.sessions id { s with cursor := s.chunks.length, lastAccess := now },
      t.nextId⟩, some (s.chunks.drop s.cursor, s.status))

/-- `close(streamId)`: mark terminal. -/
def closeStream (t : Table) (id : Nat) : Table :=
  match lookupT t id with
  | none => t
  | some s => ⟨updateL t.sessions id { s with status := .closed }, t.nextId⟩

/-- TTL eviction: drop sessions idle beyond `ttl`, regardless of status. -/
def evict (t : Table) (ttl now : Nat) : Table :=
  ⟨t.sessions.filter (fun p => now - p.2.lastAccess ≤ ttl), t.nextId⟩

/-- Append a list of chunks one call at a time (a total order of completion
of the appends). -/
def appendAll (t : Table) (id : Nat) (chunks : List String) (now : Nat) : Table :=
  match chunks with
  | [] => t
  | c :: rest => appendAll (appendChunk t id c now).1 id rest now

/-- One table operation, as performed by the dispatcher or the bridge. -/
inductive Step : Table → Table → Prop where
  | sopen (t : Table) (acc tgt : String) (now : Nat) : Step t (openStream t acc tgt now).1
  | sappend (t : Table) (id : Nat) (chunk : String) (now : Nat) :
      Step t (appendChunk t id chunk now).1
  | sdrain (t : Table) (id : Nat) (now : Nat) : Step t (drainStream t id now).1
  | sclose (t : Table) (id : Nat) : Step t (closeStream t id)
  | sevict (t : Table) (ttl now : Nat) : Step t (evict t ttl now)

/-- Tables reachable from the empty table through table operations. -/
inductive Reachable : Table → Prop where
  | init : Reachable emptyTable
  | step {t t' : Table} : Reachable t → Step t t' → Reachable t'

/-- An open session for `(acc, tgt)`. -/
def openPred (acc tgt : String) (p : Nat × Session) : Bool :=
  decide (p.2.status = SessionStatus.opened ∧ p.2.accountId = acc ∧ p.2.target = tgt)

/-- How many sessions for `(acc, tgt)` are open. -/
def openCount (t : Table) (acc tgt : String) : Nat := t.sessions.countP (openPred acc tgt)

/-- Structural well-formedness of the table: stream ids are unique and below
the id counter. -/
def KeysOk (t : Table) : Prop :=
  (t.sessions.map (·.1)).Nodup ∧ ∀ p ∈ t.sessions, p.1 < t.nextId

/-- `tryAppendToActiveStream(accountId, target, chunk)`: modelled from the
spec's OutboundStreamBridge (§4.5). -/
def tryAppendToActiveStream (t : Table) (acc tgt chunk : String) (now : Nat) :
    Table × Option Nat :=
  match t.sessions.find? (openPred acc tgt) with
  | none => (t, none)
  | some p => ((appendChunk t p.1 chunk now).1, some p.1)

end Streams

/-! ## The WebhookDispatcher and the outbound send path

Modelled from the spec: `handleWecomWebhookRequest` (missing `monitor.js`)
and the WeCom outbound `sendMedia` (missing `channel.js`), restricted to the
paths the fallback scenario exercises.  An inbound text message whose reply
generation is still pending opens a stream session and answers with an
encrypted `stream` placeholder; a stream-poll message drains the session and
answers with the drained content; the outbound `sendMedia` renders a
markdown link to the media URL and appends it to the active stream,
reporting `stream:<streamId>`. -/

namespace Dispatcher

open Streams

/-- A decrypted inbound payload, after parsing. -/
inductive InboundMsg where
  | text (msgid sender content chattype : String)
  | streamPoll (sender : String) (sid : Nat)

/-- The JSON the dispatcher renders for the stream placeholder reply
(`\x7b` / `\x7d` are the literal braces). -/
def renderStreamOpen (sid : Nat) : String :=
  "\x7b\"msgtype\":\"stream\",\"stream\":\x7b\"id\":\"s-" ++ toString sid ++ "\"\x7d\x7d"

/-- The JSON rendered for a stream-poll reply carrying the drained
content. -/
def renderStreamContent (content : String) (finished : Bool) : String :=
  "\x7b\"msgtype\":\"stream\",\"stream\":\x7b\"content\":\"" ++ content ++ "\",\"finish\":" ++
    (if finished then "true" else "false") ++ "\"\x7d\x7d"

/-- The stream id rendered into the placeholder payload. -/
def streamIdString (sid : Nat) : String := "s-" ++ toString sid

/-- The routing target key for a single-chat sender (the test's
`user:alice`). -/
def targetOf (sender : String) : String := "user:" ++ sender

/-- Modelled from the spec: the dispatcher's routing stage for a request
that already passed verification and decryption.  `replyPending` says the
reply pipeline is still generating (the fallback scenario); the response is
the encrypted body, `none` when the request is not answerable. -/
def handleInbound (E : List Nat → List Nat → List Nat) (key recv : String)
    (prefix16 : List Nat) (t : Table) (acc : String) (m : InboundMsg) (now : Nat)
    (replyPending : Bool) : Table × Option String :=
  match m with
  | .text _ sender _ _ =>
    if replyPending then
      let r := openStream t acc (targetOf sender) now
      (r.1, Wecom.encryptWecomPlaintext E key recv prefix16 (renderStreamOpen r.2))
    else (t, none)
  | .streamPoll _ sid =>
    let r := drainStream t sid now
    match r.2 with
    | none => (t, none)
    | some d =>
      (r.1, Wecom.encryptWecomPlaintext E key recv prefix16
        (renderStreamContent (String.join d.1) (d.2 == SessionStatus.closed)))

/-- The markdown-link chunk the outbound path renders for a media send
(the literal `[下载文件](url)` of the test). -/
def mediaChunk (text : Option String) (url : String) : String :=
  let link := "[下载文件](" ++ url ++ ")"
  match text with
  | some tx => tx ++ "\n" ++ link
  | none => link

/-- Modelled from the spec: the WeCom outbound `sendMedia` when no
`response_url` is available — append the rendered chunk to the active
stream and report `stream:<streamId>`; with no active stream the caller
falls back to a direct push (out of the modelled core, reported as a failed
append here). -/
def wecomSendMedia (t : Table) (acc dest : String) (text : Option String) (url : String)
    (now : Nat) : Table × Bool × String :=
  match tryAppendToActiveStream t acc dest (mediaChunk text url) now with
  | (t', some sid) => (t', true, "stream:" ++ toString sid)
  | (t', none) => (t', false, "")

/-- Substring test (used to state the literal-substring expectations of the
scenario). -/
def containsSub (s sub : String) : Bool := decide (sub.data <:+: s.data)

end Dispatcher

/-! ## Concrete instances used by witnesses and counterexamples -/

/-- A network oracle whose every operation fails; the early-return theorems
never reach it. -/
def QQBot.failNet : QQBot.NetEnv where
  getAccessToken := fun _ _ => .error "net"
  sendC2CMessage := fun _ _ _ _ _ => .error "net"
  sendGroupMessage := fun _ _ _ _ _ => .error "net"
  sendChannelMessage := fun _ _ _ _ => .error "net"
  loadMediaBuffer := fun _ => .error "net"
  uploadC2CMedia := fun _ _ _ _ => .error "net"
  uploadGroupMedia := fun _ _ _ _ => .error "net"
  sendC2CMediaMessage := fun _ _ _ => .error "net"
  sendGroupMediaMessage := fun _ _ _ => .error "net"
  detectMediaType := fun _ => "file"

/-- A DingTalk oracle whose media send rejects while text sends succeed. -/
def DingTalk.failingMediaNet : DingTalk.DingtalkNet where
  sendMessage := fun _ _ _ => .ok ("mid-1", "conv-1")
  sendMediaCall := fun _ _ _ => .error "boom"

/-- Like `failingMediaNet` but with a different rejection message. -/
def DingTalk.failingMediaNet2 : DingTalk.DingtalkNet where
  sendMessage := fun _ _ _ => .ok ("mid-1", "conv-1")
  sendMediaCall := fun _ _ _ => .error "HTTP 500"

/-! ## The concrete stream-fallback scenario (the integration test's data) -/

namespace Scenario

/-- The test account's 43-character encoding key. -/
def KEY : String := "abcdefghijklmnopqrstuvwxyz0123456789ABCDEFG"

/-- The receiver (corp) id. -/
def RECV : String := "corp123"

/-- The 16-byte random prefix used by the scenario (fixed here). -/
def PRE : List Nat := List.replicate 16 0

/-- The media URL of the scenario. -/
def MEDIA_URL : String := "https://cdn.example.com/report.pdf"

/-- The encrypted inbound body: the user's text message, encrypted under the
account key (what the webhook receives and whose signature it checks). -/
def INBOUND_CT : String :=
  (Wecom.encryptWecomPlaintext Wecom.idCipher KEY RECV PRE "你好").getD ""

/-- State and response after the inbound pending-reply text message. -/
def step1 : Streams.Table × Option String :=
  Dispatcher.handleInbound Wecom.idCipher KEY RECV PRE Streams.emptyTable "default"
    (Dispatcher.InboundMsg.text "msg1" "alice" "你好" "single") 100 true

/-- The later `sendMedia` call for the same account/target. -/
def step2 : Streams.Table × Bool × String :=
  Dispatcher.wecomSendMedia step1.1 "default" (Dispatcher.targetOf "alice")
    (some "附件如下") MEDIA_URL 200

/-- The subsequent stream-poll webhook for the opened stream id. -/
def step3 : Streams.Table × Option String :=
  Dispatcher.handleInbound Wecom.idCipher KEY RECV PRE step2.1 "default"
    (Dispatcher.InboundMsg.streamPoll "alice" 0) 300 true

end Scenario

/-! # Theorems -/

/-! ## C9 — the install hint prints at most once, and never when a China
channel is enabled -/

namespace InstallHint

theorem showHint_shown_true (c : JsValue) (l : Logger) :
    showChinaInstallHint true c l = (true, []) := by
  simp [showChinaInstallHint]

theorem runHintCalls_true_countP (calls : List (JsValue × Logger)) :
    (runHintCalls true calls).countP (fun out => !out.isEmpty) = 0 := by
  induction calls with
  | nil => rfl
  | cons hd tl ih =>
    obtain ⟨c, l⟩ := hd
    simp [runHintCalls, showHint_shown_true, List.countP_cons, ih]

theorem hintLines_not_isEmpty : hintLines.isEmpty = false := rfl

theorem runHintCalls_atMostOne (calls : List (JsValue × Logger)) :
    (runHintCalls false calls).countP (fun out => !out.isEmpty) ≤ 1 := by
  induction calls with
  | nil => simp [runHintCalls]
  | cons hd tl ih =>
    obtain ⟨c, l⟩ := hd
    by_cases h : hasAnyEnabledChinaChannel c
    · simpa [runHintCalls, showChinaInstallHint, h, List.countP_cons] using ih
    · obtain ⟨hi, hw⟩ := l
      cases hi <;> cases hw <;>
        simp [runHintCalls, showChinaInstallHint, h, List.countP_cons,
          runHintCalls_true_countP, hintLines_not_isEmpty]

theorem showHint_enabled (shown : Bool) (fields chans : List (String × JsValue))
    (lg : Logger) (ch : String) (hmem : ch ∈ SUPPORTED_CHANNELS)
    (hch : lookupField "channels" fields = some (.vobj chans))
    (hen : channelEnabledExactly chans ch = true) :
    showChinaInstallHint shown (.vobj fields) lg = (shown, []) := by
  have hany : hasAnyEnabledChinaChannel (.vobj fields) = true := by
    simp only [hasAnyEnabledChinaChannel, hch]
    exact List.any_eq_true.mpr ⟨ch, hmem, hen⟩
  simp [showChinaInstallHint, hany]

end InstallHint

/-- C9: `showChinaInstallHint(api)` prints the install-hint lines at most
once per process — over any sequence of calls starting from an unset flag, at
most one call produces output — and any call whose `api.config.channels`
contains a supported channel (dingtalk, feishu-china, wecom, wecom-app,
qqbot) with `enabled` exactly `true` prints nothing and leaves the shown flag
as it was (in particular unset). -/
theorem install_hint_once_and_enabled_skip :
    (∀ calls : List (InstallHint.JsValue × InstallHint.Logger),
      (InstallHint.runHintCalls false calls).countP (fun out => !out.isEmpty) ≤ 1)
    ∧ (∀ (shown : Bool) (fields chans : List (String × InstallHint.JsValue))
        (lg : InstallHint.Logger) (ch : String),
        ch ∈ InstallHint.SUPPORTED_CHANNELS →
        InstallHint.lookupField "channels" fields = some (.vobj chans) →
        InstallHint.channelEnabledExactly chans ch = true →
        InstallHint.showChinaInstallHint shown (.vobj fields) lg = (shown, [])) :=
  ⟨InstallHint.runHintCalls_atMostOne,
   fun shown fields chans lg ch hmem hch hen =>
     InstallHint.showHint_enabled shown fields chans lg ch hmem hch hen⟩

/-- Witness for C9 at a concrete configuration with `wecom.enabled === true`. -/
theorem install_hint_once_and_enabled_skip_witness :
    InstallHint.showChinaInstallHint false
      (.vobj [("channels", .vobj [("wecom", .vobj [("enabled", .vbool true)])])])
      ⟨true, true⟩ = (false, []) :=
  install_hint_once_and_enabled_skip.2 false
    [("channels", .vobj [("wecom", .vobj [("enabled", .vbool true)])])]
    [("wecom", .vobj [("enabled", .vbool true)])] ⟨true, true⟩ "wecom"
    (by simp [InstallHint.SUPPORTED_CHANNELS]) rfl rfl

/-! ## C10 — qqbot outbound returns error results, not throws, when
unconfigured -/

namespace QQBot

theorem sendTextQ_no_channel (parse : QQBotConfig → Option QQBotConfig) (net : NetEnv)
    (cfg : OutboundConfig) (dest text : String) (replyToId : Option String)
    (h : effectiveCfg parse cfg = none) :
    sendTextQ parse net cfg dest text replyToId
      = (.ok (errResult "QQBot channel not configured"), []) := by
  simp [sendTextQ, h]

theorem sendTextQ_no_creds (parse : QQBotConfig → Option QQBotConfig) (net : NetEnv)
    (cfg : OutboundConfig) (qq : QQBotConfig) (dest text : String)
    (replyToId : Option String) (h : effectiveCfg parse cfg = some qq)
    (hc : (falsy qq.appId || falsy qq.clientSecret) = true) :
    sendTextQ parse net cfg dest text replyToId
      = (.ok (errResult "QQBot not configured (missing appId/clientSecret)"), []) := by
  simp [sendTextQ, h, hc]

theorem sendMediaQ_url_no_channel (parse : QQBotConfig → Option QQBotConfig) (net : NetEnv)
    (cfg : OutboundConfig) (dest : String) (text : Option String) (url : String)
    (h : effectiveCfg parse cfg = none) :
    sendMediaQ parse net cfg dest text (some url)
      = (.ok (errResult "QQBot channel not configured"), []) := by
  simp [sendMediaQ, h]

theorem sendMediaQ_url_no_creds (parse : QQBotConfig → Option QQBotConfig) (net : NetEnv)
    (cfg : OutboundConfig) (qq : QQBotConfig) (dest : String) (text : Option String)
    (url : String) (h : effectiveCfg parse cfg = some qq)
    (hc : (falsy qq.appId || falsy qq.clientSecret) = true) :
    sendMediaQ parse net cfg dest text (some url)
      = (.ok (errResult "QQBot not configured (missing appId/clientSecret)"), []) := by
  simp [sendMediaQ, h, hc]

theorem sendMediaQ_no_url_no_text (parse : QQBotConfig → Option QQBotConfig) (net : NetEnv)
    (cfg : OutboundConfig) (dest : String) (text : Option String)
    (h : ((text.map String.trim).getD "").isEmpty = true) :
    sendMediaQ parse net cfg dest text none
      = (.ok (errResult "mediaUrl is required for sendMedia"), []) := by
  simp [sendMediaQ, h]

theorem sendMediaQ_no_url_with_text (parse : QQBotConfig → Option QQBotConfig) (net : NetEnv)
    (cfg : OutboundConfig) (dest : String) (text : Option String)
    (h : ((text.map String.trim).getD "").isEmpty = false) :
    sendMediaQ parse net cfg dest text none
      = sendTextQ parse net cfg dest ((text.map String.trim).getD "") none := by
  simp [sendMediaQ, h]

end QQBot

/-- C10: whenever `cfg.channels.qqbot` is absent, or its `appId` or
`clientSecret` is missing/empty, `sendText` and `sendMedia` return a
fulfilled result with channel `"qqbot"` and the corresponding non-empty error
string, issuing no network operation; `sendMedia` with neither a `mediaUrl`
nor non-empty text returns the `"mediaUrl is required for sendMedia"` error
(and with non-empty text but no `mediaUrl` it delegates to `sendText`, so the
same configuration errors surface). -/
theorem qqbot_unconfigured_error_results :
    (∀ (parse : QQBot.QQBotConfig → Option QQBot.QQBotConfig) (net : QQBot.NetEnv)
        (cfg : QQBot.OutboundConfig) (dest text : String) (replyToId : Option String),
      QQBot.effectiveCfg parse cfg = none →
      QQBot.sendTextQ parse net cfg dest text replyToId
        = (.ok (QQBot.errResult "QQBot channel not configured"), []))
    ∧ (∀ (parse : QQBot.QQBotConfig → Option QQBot.QQBotConfig) (net : QQBot.NetEnv)
        (cfg : QQBot.OutboundConfig) (qq : QQBot.QQBotConfig) (dest text : String)
        (replyToId : Option String),
      QQBot.effectiveCfg parse cfg = some qq →
      (QQBot.falsy qq.appId || QQBot.falsy qq.clientSecret) = true →
      QQBot.sendTextQ parse net cfg dest text replyToId
        = (.ok (QQBot.errResult "QQBot not configured (missing appId/clientSecret)"), []))
    ∧ (∀ (parse : QQBot.QQBotConfig → Option QQBot.QQBotConfig) (net : QQBot.NetEnv)
        (cfg : QQBot.OutboundConfig) (dest : String) (text : Option String) (url : String),
      QQBot.effectiveCfg parse cfg = none →
      QQBot.sendMediaQ parse net cfg dest text (some url)
        = (.ok (QQBot.errResult "QQBot channel not configured"), []))
    ∧ (∀ (parse : QQBot.QQBotConfig → Option QQBot.QQBotConfig) (net : QQBot.NetEnv)
        (cfg : QQBot.OutboundConfig) (qq : QQBot.QQBotConfig) (dest : String)
        (text : Option String) (url : String),
      QQBot.effectiveCfg parse cfg = some qq →
      (QQBot.falsy qq.appId || QQBot.falsy qq.clientSecret) = true →
      QQBot.sendMediaQ parse net cfg dest text (some url)
        = (.ok (QQBot.errResult "QQBot not configured (missing appId/clientSecret)"), []))
    ∧ (∀ (parse : QQBot.QQBotConfig → Option QQBot.QQBotConfig) (net : QQBot.NetEnv)
        (cfg : QQBot.OutboundConfig) (dest : String) (text : Option String),
      ((text.map String.trim).getD "").isEmpty = true →
      QQBot.sendMediaQ parse net cfg dest text none
        = (.ok (QQBot.errResult "mediaUrl is required for sendMedia"), []))
    ∧ (∀ (parse : QQBot.QQBotConfig → Option QQBot.QQBotConfig) (net : QQBot.NetEnv)
        (cfg : QQBot.OutboundConfig) (dest : String) (text : Option String),
      ((text.map String.trim).getD "").isEmpty = false →
      QQBot.effectiveCfg parse cfg = none →
      QQBot.sendMediaQ parse net cfg dest text none
        = (.ok (QQBot.errResult "QQBot channel not configured"), [])) :=
  ⟨fun parse net cfg dest text replyToId h =>
      QQBot.sendTextQ_no_channel parse net cfg dest text replyToId h,
   fun parse net cfg qq dest text replyToId h hc =>
      QQBot.sendTextQ_no_creds parse net cfg qq dest text replyToId h hc,
   fun parse net cfg dest text url h =>
      QQBot.sendMediaQ_url_no_channel parse net cfg dest text url h,
   fun parse net cfg qq dest text url h hc =>
      QQBot.sendMediaQ_url_no_creds parse net cfg qq dest text url h hc,
   fun parse net cfg dest text h =>
      QQBot.sendMediaQ_no_url_no_text parse net cfg dest text h,
   fun parse net cfg dest text h hn => by
      rw [QQBot.sendMediaQ_no_url_with_text parse net cfg dest text h]
      exact QQBot.sendTextQ_no_channel parse net cfg dest _ none hn⟩

/-- Witness for C10: a config without a qqbot channel, and one with an empty
`appId`, on the all-failing network oracle. -/
theorem qqbot_unconfigured_error_results_witness :
    QQBot.sendTextQ (fun c => some c) QQBot.failNet ⟨none⟩ "user:alice" "hi" none
      = (.ok (QQBot.errResult "QQBot channel not configured"), [])
    ∧ QQBot.sendMediaQ (fun c => some c) QQBot.failNet
        ⟨some ⟨some "", some "secret", none⟩⟩ "user:alice" none (some "https://x/y.png")
      = (.ok (QQBot.errResult "QQBot not configured (missing appId/clientSecret)"), [])
    ∧ QQBot.sendMediaQ (fun c => some c) QQBot.failNet ⟨none⟩ "user:alice" none none
      = (.ok (QQBot.errResult "mediaUrl is required for sendMedia"), []) :=
  ⟨qqbot_unconfigured_error_results.1 (fun c => some c) QQBot.failNet ⟨none⟩
      "user:alice" "hi" none rfl,
   (qqbot_unconfigured_error_results.2.2.2.1) (fun c => some c) QQBot.failNet
      ⟨some ⟨some "", some "secret", none⟩⟩ ⟨some "", some "secret", none⟩
      "user:alice" none "https://x/y.png" rfl rfl,
   (qqbot_unconfigured_error_results.2.2.2.2.1) (fun c => some c) QQBot.failNet ⟨none⟩
      "user:alice" none rfl⟩

/-! ## C8 — dingtalk sendMedia swallows the media failure instead of
returning a typed failure result -/

/-- Counterexample to C8: at a concrete call where the media send fails
(`"boom"`), `sendMedia` returns the ordinary success-shaped `SendResult` of
the fallback text send — the `SendResult` type has no failure variant and the
value is identical to the one produced when the media send fails for an
entirely different reason (`"HTTP 500"`), so the caller cannot observe the
failure; the error only reaches the fire-and-forget `console.error` log at
the point of occurrence. -/
theorem dingtalk_sendMedia_failure_not_surfaced :
    DingTalk.sendMediaD DingTalk.failingMediaNet (some ⟨some "id", some "secret"⟩)
      "user:alice" none (some "https://cdn.example.com/report.pdf") 0
      = (.ok { channel := "dingtalk", messageId := "mid-1", chatId := some "conv-1",
               conversationId := some "conv-1" },
         ["[dingtalk] sendMediaDingtalk failed: boom"])
    ∧ (DingTalk.sendMediaD DingTalk.failingMediaNet2 (some ⟨some "id", some "secret"⟩)
        "user:alice" none (some "https://cdn.example.com/report.pdf") 0).1
      = (DingTalk.sendMediaD DingTalk.failingMediaNet (some ⟨some "id", some "secret"⟩)
        "user:alice" none (some "https://cdn.example.com/report.pdf") 0).1 :=
  ⟨rfl, rfl⟩

/-- C8 (amended): when the media send inside dingtalk `sendMedia` fails, the
error is caught at the point of occurrence, logged fire-and-forget
(`console.error`), and `sendMedia` itself decides the fallback — it sends the
text-link message `📎 <mediaUrl>` and returns that send's ordinary
success-shaped result; no success/failure variant reaches the caller. -/
theorem dingtalk_sendMedia_swallows_and_falls_back
    (net : DingTalk.DingtalkNet) (cfg : DingTalk.DingtalkConfig)
    (dest url e mid conv : String) (now : Nat)
    (hmedia : net.sendMediaCall (DingTalk.parseTarget dest).1 url
      (DingTalk.parseTarget dest).2 = .error e)
    (hfb : net.sendMessage (DingTalk.parseTarget dest).1 ("📎 " ++ url)
      (DingTalk.parseTarget dest).2 = .ok (mid, conv)) :
    DingTalk.sendMediaD net (some cfg) dest none (some url) now
      = (.ok { channel := "dingtalk", messageId := mid, chatId := some conv,
               conversationId := some conv },
         ["[dingtalk] sendMediaDingtalk failed: " ++ e]) := by
  simp [DingTalk.sendMediaD, hmedia, hfb]

/-- Witness for the amended C8 at the concrete failing oracle. -/
theorem dingtalk_sendMedia_swallows_and_falls_back_witness :
    DingTalk.sendMediaD DingTalk.failingMediaNet (some ⟨some "id", some "secret"⟩)
      "chat:conv-9" none (some "https://x/y.png") 7
      = (.ok { channel := "dingtalk", messageId := "mid-1", chatId := some "conv-1",
               conversationId := some "conv-1" },
         ["[dingtalk] sendMediaDingtalk failed: boom"]) :=
  dingtalk_sendMedia_swallows_and_falls_back DingTalk.failingMediaNet
    ⟨some "id", some "secret"⟩ "chat:conv-9" "https://x/y.png" "boom" "mid-1" "conv-1" 7
    rfl rfl

/-! ## C4/C5/C6 — session-table lemmas -/

namespace Streams

theorem lookupL_cons (p : Nat × Session) (rest : List (Nat × Session)) (id : Nat) :
    lookupL (p :: rest) id = if p.1 = id then some p.2 else lookupL rest id := by
  by_cases h : p.1 = id
  · simp [lookupL, List.find?_cons_of_pos, h]
  · simp only [lookupL, h, if_false]
    rw [List.find?_cons_of_neg]
    simp [h]

theorem updateL_cons (p : Nat × Session) (rest : List (Nat × Session)) (id : Nat)
    (s' : Session) :
    updateL (p :: rest) id s' = (if p.1 = id then (id, s') else p) :: updateL rest id s' := rfl

theorem lookupL_updateL_self (l : List (Nat × Session)) (id : Nat) (s' : Session) :
    lookupL (updateL l id s') id = (lookupL l id).map (fun _ => s') := by
  induction l with
  | nil => rfl
  | cons p rest ih =>
    rw [updateL_cons]
    by_cases hp : p.1 = id
    · rw [if_pos hp, lookupL_cons, lookupL_cons]
      simp [hp]
    · rw [if_neg hp, lookupL_cons, lookupL_cons]
      simp only [hp, if_false]
      exact ih

theorem lookupL_updateL_ne (l : List (Nat × Session)) (id id' : Nat) (s' : Session)
    (h : id' ≠ id) : lookupL (updateL l id s') id' = lookupL l id' := by
  induction l with
  | nil => rfl
  | cons p rest ih =>
    rw [updateL_cons]
    by_cases hp : p.1 = id
    · rw [if_pos hp, lookupL_cons, lookupL_cons]
      have hid : ((id, s') : Nat × Session).1 = id' ↔ False := by
        simp
        exact fun hh => h hh.symm
      have hpid : (p.1 = id') ↔ False := by
        simp
        rw [hp]
        exact fun hh => h hh.symm
      simp only [hid, hpid, if_false]
      exact ih
    · rw [if_neg hp, lookupL_cons, lookupL_cons]
      by_cases hp' : p.1 = id'
      · simp [hp']
      · simp only [hp', if_false]
        exact ih

theorem appendChunk_of_none {t : Table} {id : Nat} (ch : String) (now : Nat)
    (h : lookupT t id = none) : appendChunk t id ch now = (t, false) := by
  simp [appendChunk, h]

theorem appendChunk_of_closed {t : Table} {id : Nat} {s : Session} (ch : String) (now : Nat)
    (h : lookupT t id = some s) (hst : s.status = .closed) :
    appendChunk t id ch now = (t, false) := by
  simp [appendChunk, h, hst]

theorem appendChunk_of_opened {t : Table} {id : Nat} {s : Session} (ch : String) (now : Nat)
    (h : lookupT t id = some s) (hst : s.status = .opened) :
    appendChunk t id ch now =
      (⟨updateL t.sessions id { s with chunks := s.chunks ++ [ch], lastAccess := now },
        t.nextId⟩, true) := by
  simp [appendChunk, h, hst]

end Streams

/-- C5: `append(streamId, chunk)` returns `false` exactly when no session
with that id exists or its status is closed, and then leaves the table
unchanged; otherwise it returns `true`, appends the chunk at the end of the
session's ordered chunk sequence, updates its last-access time, and leaves
every other stream id's session unchanged. -/
theorem stream_append_spec (t : Streams.Table) (id : Nat) (ch : String) (now : Nat) :
    ((Streams.appendChunk t id ch now).2 = false ↔
      Streams.lookupT t id = none ∨
        ∃ s, Streams.lookupT t id = some s ∧ s.status = .closed)
    ∧ ((Streams.appendChunk t id ch now).2 = false →
        (Streams.appendChunk t id ch now).1 = t)
    ∧ (∀ s, Streams.lookupT t id = some s → s.status = .opened →
        (Streams.appendChunk t id ch now).2 = true
        ∧ Streams.lookupT (Streams.appendChunk t id ch now).1 id
            = some { s with chunks := s.chunks ++ [ch], lastAccess := now }
        ∧ ∀ id', id' ≠ id →
            Streams.lookupT (Streams.appendChunk t id ch now).1 id'
              = Streams.lookupT t id') := by
  refine ⟨⟨?_, ?_⟩, ?_, ?_⟩
  · intro hfalse
    cases hl : Streams.lookupT t id with
    | none => exact Or.inl rfl
    | some s =>
      cases hst : s.status with
      | closed => exact Or.inr ⟨s, rfl, hst⟩
      | opened =>
        rw [Streams.appendChunk_of_opened ch now hl hst] at hfalse
        simp at hfalse
  · rintro (hnone | ⟨s, hs, hcl⟩)
    · rw [Streams.appendChunk_of_none ch now hnone]
    · rw [Streams.appendChunk_of_closed ch now hs hcl]
  · intro hfalse
    cases hl : Streams.lookupT t id with
    | none => rw [Streams.appendChunk_of_none ch now hl]
    | some s =>
      cases hst : s.status with
      | closed => rw [Streams.appendChunk_of_closed ch now hl hst]
      | opened =>
        rw [Streams.appendChunk_of_opened ch now hl hst] at hfalse
        simp at hfalse
  · intro s hs hop
    rw [Streams.appendChunk_of_opened ch now hs hop]
    refine ⟨rfl, ?_, ?_⟩
    · show Streams.lookupL (Streams.updateL t.sessions id _) id = _
      rw [Streams.lookupL_updateL_self]
      have hs' : Streams.lookupL t.sessions id = some s := hs
      rw [hs']
      rfl
    · intro id' hne
      show Streams.lookupL (Streams.updateL t.sessions id _) id' = _
      rw [Streams.lookupL_updateL_ne _ _ _ _ hne]
      rfl

/-! ### C5 witness, and the C4 invariant machinery -/

/-- Witness for C5: appending to a freshly opened session succeeds. -/
theorem stream_append_spec_witness :
    (Streams.appendChunk (Streams.openStream Streams.emptyTable "acc" "user:u" 1).1
      0 "A" 2).2 = true :=
  ((stream_append_spec (Streams.openStream Streams.emptyTable "acc" "user:u" 1).1
      0 "A" 2).2.2 ⟨"acc", "user:u", [], 0, .opened, 1, 1⟩ rfl rfl).1

namespace Streams

theorem updateL_keys (l : List (Nat × Session)) (id : Nat) (s' : Session) :
    (updateL l id s').map (·.1) = l.map (·.1) := by
  induction l with
  | nil => rfl
  | cons p rest ih =>
    rw [updateL_cons]
    by_cases hp : p.1 = id
    · rw [if_pos hp]
      simp [hp, ih]
    · rw [if_neg hp]
      simp [ih]

theorem updateL_of_not_mem (l : List (Nat × Session)) (id : Nat) (s' : Session)
    (h : ∀ q ∈ l, q.1 ≠ id) : updateL l id s' = l := by
  induction l with
  | nil => rfl
  | cons p rest ih =>
    rw [updateL_cons, if_neg (h p (by simp))]
    rw [ih (fun q hq => h q (by simp [hq]))]

theorem countP_updateL_eq (pred : Nat × Session → Bool) (l : List (Nat × Session))
    (id : Nat) (s s' : Session) (hnd : (l.map (·.1)).Nodup)
    (hl : lookupL l id = some s) (hp : pred (id, s') = pred (id, s)) :
    (updateL l id s').countP pred = l.countP pred := by
  induction l with
  | nil => simp [lookupL] at hl
  | cons p rest ih =>
    rw [List.map_cons, List.nodup_cons] at hnd
    rw [lookupL_cons] at hl
    rw [updateL_cons]
    by_cases hk : p.1 = id
    · rw [if_pos hk] at hl ⊢
      injection hl with hl
      have hrest : updateL rest id s' = rest := by
        refine updateL_of_not_mem rest id s' (fun q hq hqid => ?_)
        exact hnd.1 (by rw [hk, ← hqid]; exact List.mem_map_of_mem (·.1) hq)
      rw [hrest, List.countP_cons, List.countP_cons, hp]
      have : p = (id, s) := by
        obtain ⟨p1, p2⟩ := p
        simp only at hk hl
        rw [hk, hl]
      rw [this]
    · rw [if_neg hk] at hl ⊢
      rw [List.countP_cons, List.countP_cons, ih hnd.2 hl]

theorem countP_updateL_le (pred : Nat × Session → Bool) (l : List (Nat × Session))
    (id : Nat) (s s' : Session) (hnd : (l.map (·.1)).Nodup)
    (hl : lookupL l id = some s) (hp : pred (id, s') = true → pred (id, s) = true) :
    (updateL l id s').countP pred ≤ l.countP pred := by
  induction l with
  | nil => simp [lookupL] at hl
  | cons p rest ih =>
    rw [List.map_cons, List.nodup_cons] at hnd
    rw [lookupL_cons] at hl
    rw [updateL_cons]
    by_cases hk : p.1 = id
    · rw [if_pos hk] at hl ⊢
      injection hl with hl
      have hrest : updateL rest id s' = rest := by
        refine updateL_of_not_mem rest id s' (fun q hq hqid => ?_)
        exact hnd.1 (by rw [hk, ← hqid]; exact List.mem_map_of_mem (·.1) hq)
      have hpeq : p = (id, s) := by
        obtain ⟨p1, p2⟩ := p
        simp only at hk hl
        rw [hk, hl]
      rw [hrest, List.countP_cons, List.countP_cons, hpeq]
      by_cases hps : pred (id, s') = true
      · simp [hps, hp hps]
      · simp only [Bool.not_eq_true] at hps
        simp [hps]
    · rw [if_neg hk] at hl ⊢
      rw [List.countP_cons, List.countP_cons]
      have := ih hnd.2 hl
      omega

theorem updateL_bound (l : List (Nat × Session)) (id : Nat) (s' : Session) (n : Nat)
    (h : ∀ q ∈ l, q.1 < n) : ∀ q ∈ updateL l id s', q.1 < n := by
  intro q hq
  induction l with
  | nil => simp [updateL] at hq
  | cons p rest ih =>
    rw [updateL_cons] at hq
    rcases List.mem_cons.mp hq with hq | hq
    · by_cases hp : p.1 = id
      · rw [if_pos hp] at hq
        rw [hq]
        rw [← hp]
        exact h p (by simp)
      · rw [if_neg hp] at hq
        rw [hq]
        exact h p (by simp)
    · exact ih (fun q' hq' => h q' (by simp [hq'])) hq

theorem keysOk_openStream {t : Table} (acc tgt : String) (now : Nat) (hk : KeysOk t) :
    KeysOk (openStream t acc tgt now).1 := by
  obtain ⟨hnd, hb⟩ := hk
  have hkeys : (t.sessions.map (closeMatching acc tgt)).map (·.1)
      = t.sessions.map (·.1) := by
    rw [List.map_map]
    refine List.map_congr_left (fun p _ => ?_)
    by_cases h : p.2.accountId = acc ∧ p.2.target = tgt ∧ p.2.status = .opened
    · simp [closeMatching, h]
    · simp [closeMatching, h]
  simp only [openStream]
  constructor
  · rw [List.map_cons, List.nodup_cons, hkeys]
    refine ⟨fun hmem => ?_, hnd⟩
    obtain ⟨q, hq, hq1⟩ := List.mem_map.mp hmem
    exact absurd hq1 (Nat.ne_of_lt (hb q hq))
  · intro p hp
    rcases List.mem_cons.mp hp with hp | hp
    · rw [hp]
      exact Nat.lt_succ_self _
    · obtain ⟨q, hq, hq1⟩ := List.mem_map.mp hp
      have := hb q hq
      by_cases h : q.2.accountId = acc ∧ q.2.target = tgt ∧ q.2.status = SessionStatus.opened
      · rw [closeMatching, if_pos h] at hq1
        rw [← hq1]
        exact Nat.lt_succ_of_lt this
      · rw [closeMatching, if_neg h] at hq1
        rw [← hq1]
        exact Nat.lt_succ_of_lt this

theorem keysOk_appendChunk {t : Table} (id : Nat) (ch : String) (now : Nat) (hk : KeysOk t) :
    KeysOk (appendChunk t id ch now).1 := by
  cases hl : lookupT t id with
  | none => rw [appendChunk_of_none ch now hl]; exact hk
  | some s =>
    cases hst : s.status with
    | closed => rw [appendChunk_of_closed ch now hl hst]; exact hk
    | opened =>
      rw [appendChunk_of_opened ch now hl hst]
      exact ⟨by rw [updateL_keys]; exact hk.1, updateL_bound _ _ _ _ hk.2⟩

theorem keysOk_drainStream {t : Table} (id : Nat) (now : Nat) (hk : KeysOk t) :
    KeysOk (drainStream t id now).1 := by
  cases hl : lookupT t id with
  | none => simp only [drainStream, hl]; exact hk
  | some s =>
    simp only [drainStream, hl]
    exact ⟨by rw [updateL_keys]; exact hk.1, updateL_bound _ _ _ _ hk.2⟩

theorem keysOk_closeStream {t : Table} (id : Nat) (hk : KeysOk t) :
    KeysOk (closeStream t id) := by
  cases hl : lookupT t id with
  | none => simp only [closeStream, hl]; exact hk
  | some s =>
    simp only [closeStream, hl]
    exact ⟨by rw [updateL_keys]; exact hk.1, updateL_bound _ _ _ _ hk.2⟩

theorem keysOk_evict {t : Table} (ttl now : Nat) (hk : KeysOk t) :
    KeysOk (evict t ttl now) := by
  refine ⟨List.Nodup.sublist (List.Sublist.map _ (List.filter_sublist _)) hk.1, ?_⟩
  intro p hp
  exact hk.2 p (List.mem_of_mem_filter hp)

theorem keysOk_emptyTable : KeysOk emptyTable := by
  constructor
  · simp [emptyTable]
  · intro p hp
    simp [emptyTable] at hp

theorem countP_close_map_zero (l : List (Nat × Session)) (acc tgt : String) :
    (l.map (closeMatching acc tgt)).countP (openPred acc tgt) = 0 := by
  induction l with
  | nil => rfl
  | cons p rest ih =>
    rw [List.map_cons, List.countP_cons, ih]
    by_cases hc : p.2.accountId = acc ∧ p.2.target = tgt ∧ p.2.status = SessionStatus.opened
    · rw [closeMatching, if_pos hc]
      have hfalse : openPred acc tgt (p.1, { p.2 with status := SessionStatus.closed })
          = false := by simp [openPred]
      simp [hfalse]
    · rw [closeMatching, if_neg hc]
      have hfalse : openPred acc tgt p = false := by
        simp only [openPred, decide_eq_false_iff_not]
        rintro ⟨h1, h2, h3⟩
        exact hc ⟨h2, h3, h1⟩
      simp [hfalse]

theorem countP_close_map_le (l : List (Nat × Session)) (acc' tgt' acc tgt : String) :
    (l.map (closeMatching acc' tgt')).countP (openPred acc tgt)
      ≤ l.countP (openPred acc tgt) := by
  induction l with
  | nil => exact Nat.le_refl _
  | cons p rest ih =>
    rw [List.map_cons, List.countP_cons, List.countP_cons]
    have hstep : (if openPred acc tgt (closeMatching acc' tgt' p) = true then 1 else 0)
        ≤ (if openPred acc tgt p = true then 1 else 0) := by
      by_cases hc : p.2.accountId = acc' ∧ p.2.target = tgt' ∧ p.2.status = SessionStatus.opened
      · rw [closeMatching, if_pos hc]
        have hfalse : openPred acc tgt (p.1, { p.2 with status := SessionStatus.closed })
            = false := by simp [openPred]
        simp [hfalse]
      · simp [closeMatching, hc]
    omega

theorem openStream_sessions (t : Table) (acc tgt : String) (now : Nat) :
    (openStream t acc tgt now).1.sessions
      = (t.nextId, ⟨acc, tgt, [], 0, .opened, now, now⟩) ::
        t.sessions.map (closeMatching acc tgt) := rfl

theorem openCount_openStream_le {t : Table} (acc' tgt' : String) (now : Nat)
    (acc tgt : String) (hprev : openCount t acc tgt ≤ 1) :
    openCount (openStream t acc' tgt' now).1 acc tgt ≤ 1 := by
  simp only [openCount]
  rw [openStream_sessions, List.countP_cons]
  by_cases hpair : acc' = acc ∧ tgt' = tgt
  · obtain ⟨h1, h2⟩ := hpair
    subst h1
    subst h2
    rw [countP_close_map_zero]
    simp [openPred]
  · have hhead : openPred acc tgt (t.nextId,
        ⟨acc', tgt', [], 0, .opened, now, now⟩) = false := by
      simp only [openPred, decide_eq_false_iff_not]
      rintro ⟨_, h2, h3⟩
      exact hpair ⟨h2, h3⟩
    rw [hhead]
    have hle := countP_close_map_le t.sessions acc' tgt' acc tgt
    have hp := hprev
    simp only [openCount] at hp
    simp only [Bool.false_eq_true, if_false]
    omega

theorem openCount_appendChunk_eq {t : Table} (id : Nat) (ch : String) (now : Nat)
    (acc tgt : String) (hk : KeysOk t) :
    openCount (appendChunk t id ch now).1 acc tgt = openCount t acc tgt := by
  cases hl : lookupT t id with
  | none => rw [appendChunk_of_none ch now hl]
  | some s =>
    cases hst : s.status with
    | closed => rw [appendChunk_of_closed ch now hl hst]
    | opened =>
      rw [appendChunk_of_opened ch now hl hst]
      exact countP_updateL_eq _ _ id s _ hk.1 hl rfl

theorem openCount_drainStream_eq {t : Table} (id : Nat) (now : Nat)
    (acc tgt : String) (hk : KeysOk t) :
    openCount (drainStream t id now).1 acc tgt = openCount t acc tgt := by
  cases hl : lookupT t id with
  | none => simp only [drainStream, hl]
  | some s =>
    simp only [drainStream, hl]
    exact countP_updateL_eq _ _ id s _ hk.1 hl rfl

theorem openCount_closeStream_le {t : Table} (id : Nat) (acc tgt : String) (hk : KeysOk t) :
    openCount (closeStream t id) acc tgt ≤ openCount t acc tgt := by
  cases hl : lookupT t id with
  | none => simp only [closeStream, hl]; exact Nat.le_refl _
  | some s =>
    simp only [closeStream, hl]
    refine countP_updateL_le _ _ id s _ hk.1 hl (fun hp => ?_)
    exfalso
    simp [openPred] at hp

theorem openCount_evict_le {t : Table} (ttl now : Nat) (acc tgt : String) :
    openCount (evict t ttl now) acc tgt ≤ openCount t acc tgt :=
  List.Sublist.countP_le _ (List.filter_sublist _)

/-- The combined reachability invariant: well-formed keys and at most one
open session per `(accountId, target)` pair. -/
theorem reachable_inv : ∀ {t : Table}, Reachable t →
    KeysOk t ∧ ∀ acc tgt, openCount t acc tgt ≤ 1 := by
  intro t h
  induction h with
  | init =>
    exact ⟨keysOk_emptyTable, fun acc tgt => by simp [openCount, emptyTable]⟩
  | step hr hs ih =>
    obtain ⟨hk, hc⟩ := ih
    cases hs with
    | sopen acc' tgt' now =>
      exact ⟨keysOk_openStream acc' tgt' now hk,
        fun acc tgt => openCount_openStream_le acc' tgt' now acc tgt (hc acc tgt)⟩
    | sappend id ch now =>
      exact ⟨keysOk_appendChunk id ch now hk,
        fun acc tgt => by
          rw [openCount_appendChunk_eq id ch now acc tgt hk]; exact hc acc tgt⟩
    | sdrain id now =>
      exact ⟨keysOk_drainStream id now hk,
        fun acc tgt => by
          rw [openCount_drainStream_eq id now acc tgt hk]; exact hc acc tgt⟩
    | sclose id =>
      exact ⟨keysOk_closeStream id hk,
        fun acc tgt => Nat.le_trans (openCount_closeStream_le id acc tgt hk) (hc acc tgt)⟩
    | sevict ttl now =>
      exact ⟨keysOk_evict ttl now hk,
        fun acc tgt => Nat.le_trans (openCount_evict_le ttl now acc tgt) (hc acc tgt)⟩

end Streams

namespace Streams

theorem append_after_reopen (t : Table) (acc tgt : String) (n1 n2 n3 : Nat) (ch : String) :
    (appendChunk (openStream (openStream t acc tgt n1).1 acc tgt n2).1
      (openStream t acc tgt n1).2 ch n3).2 = false := by
  have hlook : lookupT (openStream (openStream t acc tgt n1).1 acc tgt n2).1
      (openStream t acc tgt n1).2
      = some ⟨acc, tgt, [], 0, .closed, n1, n1⟩ := by
    rw [lookupT, openStream_sessions, lookupL_cons]
    have hcond : ¬(((openStream t acc tgt n1).1.nextId,
        (⟨acc, tgt, [], 0, .opened, n2, n2⟩ : Session)).1 = (openStream t acc tgt n1).2) := by
      show ¬(t.nextId + 1 = t.nextId)
      omega
    rw [if_neg hcond, openStream_sessions, List.map_cons, lookupL_cons]
    have hcm : closeMatching acc tgt (t.nextId, ⟨acc, tgt, [], 0, .opened, n1, n1⟩)
        = (t.nextId, ⟨acc, tgt, [], 0, SessionStatus.closed, n1, n1⟩) := by
      simp [closeMatching]
    rw [hcm]
    simp [openStream]
  rw [appendChunk_of_closed ch n3 hlook rfl]

theorem drainStream_of_some {t : Table} {id : Nat} {s : Session} (now : Nat)
    (h : lookupT t id = some s) :
    (drainStream t id now).2 = some (s.chunks.drop s.cursor, s.status) := by
  simp [drainStream, h]

theorem drain_after_appendAll : ∀ (xs : List String) (t : Table) (id : Nat) (s : Session)
    (now now' : Nat), lookupT t id = some s → s.status = .opened →
    (drainStream (appendAll t id xs now) id now').2
      = some ((s.chunks ++ xs).drop s.cursor, .opened)
  | [], t, id, s, now, now', hl, hst => by
    show (drainStream t id now').2 = _
    rw [drainStream_of_some now' hl, hst]
    simp
  | c :: rest, t, id, s, now, now', hl, hst => by
    show (drainStream (appendAll (appendChunk t id c now).1 id rest now) id now').2 = _
    rw [appendChunk_of_opened c now hl hst]
    have hl' : lookupT
        (⟨updateL t.sessions id { s with chunks := s.chunks ++ [c], lastAccess := now },
          t.nextId⟩ : Table) id
        = some { s with chunks := s.chunks ++ [c], lastAccess := now } := by
      show lookupL (updateL t.sessions id _) id = _
      rw [lookupL_updateL_self]
      rw [show lookupL t.sessions id = some s from hl]
      rfl
    rw [drain_after_appendAll rest _ id _ now now' hl' hst]
    simp

end Streams

/-- C4: in every reachable state of the session table, at most one session
per `(accountId, target)` pair is open; and opening a second session for the
pair implicitly closes the first, so an append to the first session's stream
id issued after the second open returns `false`. -/
theorem stream_single_open_invariant :
    (∀ t : Streams.Table, Streams.Reachable t →
      ∀ acc tgt, Streams.openCount t acc tgt ≤ 1)
    ∧ (∀ (t : Streams.Table) (acc tgt : String) (n1 n2 n3 : Nat) (ch : String),
        (Streams.appendChunk
          (Streams.openStream (Streams.openStream t acc tgt n1).1 acc tgt n2).1
          (Streams.openStream t acc tgt n1).2 ch n3).2 = false) :=
  ⟨fun _ h => (Streams.reachable_inv h).2,
   fun t acc tgt n1 n2 n3 ch => Streams.append_after_reopen t acc tgt n1 n2 n3 ch⟩

/-- Witness for C4 at the table reached by a single `open` call. -/
theorem stream_single_open_invariant_witness :
    Streams.openCount (Streams.openStream Streams.emptyTable "acc" "user:u" 1).1
      "acc" "user:u" ≤ 1 :=
  stream_single_open_invariant.1 _
    (Streams.Reachable.step Streams.Reachable.init
      (Streams.Step.sopen Streams.emptyTable "acc" "user:u" 1)) "acc" "user:u"

/-- C6: chunks are observed by `drain` in exactly the order they were
appended — for any open session, appending a list of chunks one call at a
time and then draining yields the buffered chunks followed by the appended
chunks, in order; in particular appending `"A"`, `"B"`, `"C"` to a freshly
opened session and draining yields `["A", "B", "C"]`. -/
theorem stream_fifo_order :
    (∀ (xs : List String) (t : Streams.Table) (id : Nat) (s : Streams.Session)
        (now now' : Nat),
      Streams.lookupT t id = some s → s.status = .opened →
      (Streams.drainStream (Streams.appendAll t id xs now) id now').2
        = some ((s.chunks ++ xs).drop s.cursor, .opened))
    ∧ (Streams.drainStream
        (Streams.appendAll (Streams.openStream Streams.emptyTable "default" "user:alice" 1).1
          (Streams.openStream Streams.emptyTable "default" "user:alice" 1).2
          ["A", "B", "C"] 2)
        (Streams.openStream Streams.emptyTable "default" "user:alice" 1).2 3).2
      = some (["A", "B", "C"], .opened) :=
  ⟨Streams.drain_after_appendAll, rfl⟩

/-- Witness for C6's general part at a concrete open session. -/
theorem stream_fifo_order_witness :
    (Streams.drainStream
      (Streams.appendAll (Streams.openStream Streams.emptyTable "a" "t" 1).1 0 ["X"] 2)
      0 3).2 = some (["X"], .opened) :=
  stream_fifo_order.1 ["X"] _ 0 ⟨"a", "t", [], 0, .opened, 1, 1⟩ 2 3 rfl rfl

/-! ## C1/C2 — crypto lemmas: chunking, XOR, CBC -/

namespace Wecom

theorem chunk16h_congr : ∀ (n m : Nat) (l : List Nat), l.length ≤ n → l.length ≤ m →
    chunk16h n l = chunk16h m l
  | n, m, [], _, _ => by cases n <;> cases m <;> rfl
  | 0, _, _ :: _, h, _ => by simp at h
  | _ + 1, 0, _ :: _, _, h => by simp at h
  | n + 1, m + 1, a :: rest, hn, hm => by
    show ((a :: rest).take 16) :: chunk16h n ((a :: rest).drop 16)
       = ((a :: rest).take 16) :: chunk16h m ((a :: rest).drop 16)
    congr 1
    have hd : ((a :: rest).drop 16).length = (a :: rest).length - 16 := List.length_drop 16 _
    apply chunk16h_congr
    · simp only [List.length_cons] at hn hd
      omega
    · simp only [List.length_cons] at hm hd
      omega

theorem chunk16_eq (l : List Nat) (h : l ≠ []) :
    chunk16 l = l.take 16 :: chunk16 (l.drop 16) := by
  obtain ⟨a, rest, rfl⟩ := List.exists_cons_of_ne_nil h
  show chunk16h (rest.length + 1) (a :: rest) = _
  rw [show chunk16h (rest.length + 1) (a :: rest)
      = ((a :: rest).take 16) :: chunk16h rest.length ((a :: rest).drop 16) from rfl]
  congr 1
  have hd : ((a :: rest).drop 16).length = (a :: rest).length - 16 := List.length_drop 16 _
  apply chunk16h_congr
  · simp only [List.length_cons] at hd
    omega
  · exact Nat.le_refl _

theorem chunk16_flatten_aux : ∀ (n : Nat) (l : List Nat), l.length ≤ n →
    (chunk16 l).flatten = l
  | _, [], _ => rfl
  | 0, _ :: _, h => by simp at h
  | n + 1, a :: rest, h => by
    have hne : (a :: rest) ≠ [] := by simp
    rw [chunk16_eq _ hne, List.flatten_cons,
      chunk16_flatten_aux n ((a :: rest).drop 16)
        (by simp only [List.length_drop, List.length_cons] at h ⊢; omega)]
    exact List.take_append_drop 16 _

theorem chunk16_flatten (l : List Nat) : (chunk16 l).flatten = l :=
  chunk16_flatten_aux l.length l (Nat.le_refl _)

theorem chunk16_of_blocks : ∀ bs : List (List Nat), (∀ b ∈ bs, b.length = 16) →
    chunk16 bs.flatten = bs
  | [], _ => rfl
  | b :: rest, h => by
    have hb : b.length = 16 := h b (by simp)
    have hne : b ++ rest.flatten ≠ [] := by
      intro hh
      have := congrArg List.length hh
      simp [hb] at this
    rw [List.flatten_cons, chunk16_eq _ hne, List.take_left' hb, List.drop_left' hb,
      chunk16_of_blocks rest (fun b' hb' => h b' (by simp [hb']))]

theorem chunk16_block_lengths_aux : ∀ (n : Nat) (l : List Nat), l.length ≤ n →
    l.length % 16 = 0 → ∀ b ∈ chunk16 l, b.length = 16
  | _, [], _, _ => by intro b hb; simp [chunk16, chunk16h] at hb
  | 0, _ :: _, h, _ => by simp at h
  | n + 1, a :: rest, h, hmod => by
    intro b hb
    have hne : (a :: rest) ≠ [] := by simp
    rw [chunk16_eq _ hne] at hb
    have hpos : 0 < (a :: rest).length := by simp
    have hlen : 16 ≤ (a :: rest).length := by omega
    rcases List.mem_cons.mp hb with hb | hb
    · rw [hb, List.length_take]
      omega
    · refine chunk16_block_lengths_aux n ((a :: rest).drop 16) ?_ ?_ b hb
      · simp only [List.length_drop, List.length_cons] at h ⊢
        omega
      · rw [List.length_drop]
        omega

theorem chunk16_block_lengths (l : List Nat) (hmod : l.length % 16 = 0) :
    ∀ b ∈ chunk16 l, b.length = 16 :=
  chunk16_block_lengths_aux l.length l (Nat.le_refl _) hmod

theorem xorBytes_length (a b : List Nat) : (xorBytes a b).length = min a.length b.length := by
  simp [xorBytes]

theorem xorBytes_xorBytes : ∀ (p b : List Nat), p.length = b.length →
    xorBytes p (xorBytes p b) = b
  | [], [], _ => rfl
  | [], _ :: _, h => by simp at h
  | _ :: _, [], h => by simp at h
  | x :: xs, y :: ys, h => by
    show (x ^^^ (x ^^^ y)) :: xorBytes xs (xorBytes xs ys) = y :: ys
    rw [Nat.xor_cancel_left, xorBytes_xorBytes xs ys (by simpa using h)]

theorem xorBytes_bounds : ∀ (a b : List Nat), (∀ v ∈ a, v < 256) → (∀ v ∈ b, v < 256) →
    ∀ v ∈ xorBytes a b, v < 256
  | [], _, _, _ => by intro v hv; simp [xorBytes] at hv
  | _ :: _, [], _, _ => by intro v hv; simp [xorBytes] at hv
  | x :: xs, y :: ys, ha, hb => by
    intro v hv
    rcases List.mem_cons.mp hv with hv | hv
    · rw [hv]
      have hx : x < 2 ^ 8 := ha x (by simp)
      have hy : y < 2 ^ 8 := hb y (by simp)
      exact Nat.xor_lt_two_pow hx hy
    · exact xorBytes_bounds xs ys (fun v' h' => ha v' (by simp [h']))
        (fun v' h' => hb v' (by simp [h'])) v hv

theorem cbcDec_cbcEnc (E D : List Nat → List Nat)
    (hED : ∀ x, x.length = 16 → D (E x) = x)
    (hE : ∀ x, x.length = 16 → (E x).length = 16) :
    ∀ (prev : List Nat) (bs : List (List Nat)), prev.length = 16 →
      (∀ b ∈ bs, b.length = 16) → cbcDec D prev (cbcEnc E prev bs) = bs
  | _, [], _, _ => rfl
  | prev, b :: rest, hp, hb => by
    have hb16 : b.length = 16 := hb b (by simp)
    have hxlen : (xorBytes prev b).length = 16 := by
      rw [xorBytes_length, hp, hb16]
      simp
    show xorBytes prev (D (E (xorBytes prev b))) ::
        cbcDec D (E (xorBytes prev b)) (cbcEnc E (E (xorBytes prev b)) rest) = b :: rest
    rw [hED _ hxlen, xorBytes_xorBytes prev b (by rw [hp, hb16])]
    congr 1
    exact cbcDec_cbcEnc E D hED hE (E (xorBytes prev b)) rest (hE _ hxlen)
      (fun b' h' => hb b' (by simp [h']))

theorem cbcEnc_blocks_ok (E : List Nat → List Nat)
    (hE : ∀ x, x.length = 16 → (E x).length = 16)
    (hEb : ∀ x, x.length = 16 → (∀ v ∈ x, v < 256) → ∀ v ∈ E x, v < 256) :
    ∀ (prev : List Nat) (bs : List (List Nat)), prev.length = 16 →
      (∀ v ∈ prev, v < 256) → (∀ b ∈ bs, b.length = 16 ∧ ∀ v ∈ b, v < 256) →
      ∀ c ∈ cbcEnc E prev bs, c.length = 16 ∧ ∀ v ∈ c, v < 256
  | _, [], _, _, _ => by intro c hc; simp [cbcEnc] at hc
  | prev, b :: rest, hp, hpb, hb => by
    intro c hc
    obtain ⟨hb16, hbb⟩ := hb b (by simp)
    have hxlen : (xorBytes prev b).length = 16 := by
      rw [xorBytes_length, hp, hb16]
      simp
    have hxb : ∀ v ∈ xorBytes prev b, v < 256 := xorBytes_bounds prev b hpb hbb
    have hclen := hE _ hxlen
    have hcb := hEb _ hxlen hxb
    have hc' : c ∈ E (xorBytes prev b) :: cbcEnc E (E (xorBytes prev b)) rest := hc
    rcases List.mem_cons.mp hc' with hceq | hcmem
    · subst hceq
      exact ⟨hclen, hcb⟩
    · exact cbcEnc_blocks_ok E hE hEb (E (xorBytes prev b)) rest hclen hcb
        (fun b' h' => hb b' (by simp [h'])) c hcmem

end Wecom

namespace Wecom

theorem b64Index_lt {c : Char} {i : Nat} (h : b64Index c = some i) : i < 64 := by
  rw [b64Index] at h
  by_cases hc : b64Alphabet.indexOf c < b64Alphabet.length
  · rw [if_pos hc] at h
    injection h with h
    rw [← h]
    exact hc
  · rw [if_neg hc] at h
    exact absurd h (by simp)

theorem b64Index_b64Char : ∀ i : Nat, i < 64 → b64Index (b64Char i) = some i := by decide

theorem b64Char_ne_eq : ∀ i : Nat, i < 64 → b64Char i ≠ '=' := by decide

theorem b64_roundtrip : ∀ l : List Nat, (∀ b ∈ l, b < 256) →
    b64DecodeBytes (b64EncodeBytes l) = some l
  | [], _ => rfl
  | [a], h => by
    have ha : a < 256 := h a (by simp)
    have h1 : a / 4 < 64 := by omega
    have h2 : a % 4 * 16 < 64 := by omega
    show b64DecodeBytes [b64Char (a / 4), b64Char (a % 4 * 16), '=', '='] = some [a]
    simp [b64DecodeBytes, b64Index_b64Char _ h1, b64Index_b64Char _ h2]
    omega
  | [a, b], h => by
    have ha : a < 256 := h a (by simp)
    have hb : b < 256 := h b (by simp)
    have h1 : a / 4 < 64 := by omega
    have h2 : a % 4 * 16 + b / 16 < 64 := by omega
    have h3 : b % 16 * 4 < 64 := by omega
    show b64DecodeBytes [b64Char (a / 4), b64Char (a % 4 * 16 + b / 16),
      b64Char (b % 16 * 4), '='] = some [a, b]
    simp [b64DecodeBytes, b64Index_b64Char _ h1, b64Index_b64Char _ h2,
      b64Index_b64Char _ h3, b64Char_ne_eq _ h3]
    omega
  | a :: b :: c :: rest, h => by
    have ha : a < 256 := h a (by simp)
    have hb : b < 256 := h b (by simp)
    have hc : c < 256 := h c (by simp)
    have h1 : a / 4 < 64 := by omega
    have h2 : a % 4 * 16 + b / 16 < 64 := by omega
    have h3 : b % 16 * 4 + c / 64 < 64 := by omega
    have h4 : c % 64 < 64 := by omega
    have hrec := b64_roundtrip rest (fun v hv => h v (by simp [hv]))
    show b64DecodeBytes (b64Char (a / 4) :: b64Char (a % 4 * 16 + b / 16) ::
      b64Char (b % 16 * 4 + c / 64) :: b64Char (c % 64) :: b64EncodeBytes rest)
      = some (a :: b :: c :: rest)
    simp [b64DecodeBytes, b64Index_b64Char _ h1, b64Index_b64Char _ h2,
      b64Index_b64Char _ h3, b64Index_b64Char _ h4, b64Char_ne_eq _ h3,
      b64Char_ne_eq _ h4, hrec]
    omega

end Wecom

namespace Wecom

theorem b64_decode_bounds : ∀ (cs : List Char) (l : List Nat),
    b64DecodeBytes cs = some l → ∀ b ∈ l, b < 256
  | [], l, h => by
    intro b hb
    rw [b64DecodeBytes] at h
    injection h with h
    rw [← h] at hb
    simp at hb
  | c1 :: c2 :: c3 :: c4 :: rest, l, h => by
    intro b hb
    rw [b64DecodeBytes] at h
    cases he1 : b64Index c1 with
    | none => rw [he1] at h; simp at h
    | some i1 =>
      cases he2 : b64Index c2 with
      | none => rw [he1, he2] at h; simp at h
      | some i2 =>
        rw [he1, he2] at h
        simp only at h
        have hi1 := b64Index_lt he1
        have hi2 := b64Index_lt he2
        by_cases h3 : c3 = '='
        · rw [if_pos h3] at h
          by_cases h4 : c4 = '=' ∧ rest = []
          · rw [if_pos h4] at h
            injection h with h
            rw [← h] at hb
            simp at hb
            omega
          · rw [if_neg h4] at h
            simp at h
        · rw [if_neg h3] at h
          cases he3 : b64Index c3 with
          | none => rw [he3] at h; simp at h
          | some i3 =>
            rw [he3] at h
            simp only at h
            have hi3 := b64Index_lt he3
            by_cases h4 : c4 = '='
            · rw [if_pos h4] at h
              by_cases h5 : rest = []
              · rw [if_pos h5] at h
                injection h with h
                rw [← h] at hb
                simp at hb
                rcases hb with hb | hb <;> omega
              · rw [if_neg h5] at h
                simp at h
            · rw [if_neg h4] at h
              cases he4 : b64Index c4 with
              | none => rw [he4] at h; simp at h
              | some i4 =>
                cases he5 : b64DecodeBytes rest with
                | none => rw [he4, he5] at h; simp at h
                | some tail =>
                  rw [he4, he5] at h
                  simp only at h
                  injection h with h
                  have hi4 := b64Index_lt he4
                  have htail := b64_decode_bounds rest tail he5
                  rw [← h] at hb
                  simp at hb
                  rcases hb with hb | hb | hb | hb
                  · omega
                  · omega
                  · omega
                  · exact htail b hb
  | [c], l, h => by
    rw [b64DecodeBytes] at h
    · simp at h
    · simp
    · simp
  | [c1, c2], l, h => by
    rw [b64DecodeBytes] at h
    · simp at h
    · simp
    · simp
  | [c1, c2, c3], l, h => by
    rw [b64DecodeBytes] at h
    · simp at h
    · simp
    · simp

end Wecom

namespace Wecom

theorem char_toNat_lt (c : Char) : c.toNat < 1114112 := by
  rcases c.valid with h | h
  · exact Nat.lt_trans h (by norm_num)
  · exact h.2

theorem utf8EncChar_bounds (c : Char) : ∀ b ∈ utf8EncChar c, b < 256 := by
  intro b hb
  have hc := char_toNat_lt c
  by_cases h1 : c.toNat < 128
  · rw [show utf8EncChar c = [c.toNat] from by simp [utf8EncChar, h1]] at hb
    simp at hb
    omega
  · by_cases h2 : c.toNat < 2048
    · rw [show utf8EncChar c = [0xC0 + c.toNat / 64, 0x80 + c.toNat % 64] from by
        simp [utf8EncChar, h1, h2]] at hb
      simp at hb
      rcases hb with hb | hb <;> omega
    · by_cases h3 : c.toNat < 65536
      · rw [show utf8EncChar c
            = [0xE0 + c.toNat / 4096, 0x80 + c.toNat / 64 % 64, 0x80 + c.toNat % 64] from by
          simp [utf8EncChar, h1, h2, h3]] at hb
        simp at hb
        rcases hb with hb | hb | hb <;> omega
      · rw [show utf8EncChar c
            = [0xF0 + c.toNat / 262144, 0x80 + c.toNat / 4096 % 64,
               0x80 + c.toNat / 64 % 64, 0x80 + c.toNat % 64] from by
          simp [utf8EncChar, h1, h2, h3]] at hb
        simp at hb
        rcases hb with hb | hb | hb | hb <;> omega

theorem utf8EncChar_ne_nil (c : Char) : utf8EncChar c ≠ [] := by
  simp only [utf8EncChar]
  repeat' split
  all_goals simp

theorem utf8DecodeOne_encChar (c : Char) (rest : List Nat) :
    utf8DecodeOne (utf8EncChar c ++ rest) = some (c, rest) := by
  have hvalid := Char.ofNat_toNat c
  have hc := char_toNat_lt c
  by_cases h1 : c.toNat < 128
  · rw [show utf8EncChar c = [c.toNat] from by simp [utf8EncChar, h1]]
    show utf8DecodeOne (c.toNat :: rest) = _
    simp only [utf8DecodeOne]
    rw [if_pos h1, hvalid]
  · by_cases h2 : c.toNat < 2048
    · rw [show utf8EncChar c = [0xC0 + c.toNat / 64, 0x80 + c.toNat % 64] from by
        simp [utf8EncChar, h1, h2]]
      show utf8DecodeOne ((0xC0 + c.toNat / 64) :: (0x80 + c.toNat % 64) :: rest) = _
      simp only [utf8DecodeOne]
      rw [if_neg (by omega), if_neg (by omega), if_pos (by omega)]
      show (if (0x80 : Nat) ≤ 0x80 + c.toNat % 64 ∧ 0x80 + c.toNat % 64 < 0xC0 then
          some (Char.ofNat ((0xC0 + c.toNat / 64 - 0xC0) * 64 + (0x80 + c.toNat % 64 - 0x80)),
            rest)
        else none) = some (c, rest)
      rw [if_pos (by omega)]
      have harith : (0xC0 + c.toNat / 64 - 0xC0) * 64 + (0x80 + c.toNat % 64 - 0x80)
          = c.toNat := by omega
      rw [harith, hvalid]
    · by_cases h3 : c.toNat < 65536
      · rw [show utf8EncChar c
            = [0xE0 + c.toNat / 4096, 0x80 + c.toNat / 64 % 64, 0x80 + c.toNat % 64] from by
          simp [utf8EncChar, h1, h2, h3]]
        show utf8DecodeOne ((0xE0 + c.toNat / 4096) :: (0x80 + c.toNat / 64 % 64) ::
          (0x80 + c.toNat % 64) :: rest) = _
        simp only [utf8DecodeOne]
        rw [if_neg (by omega), if_neg (by omega), if_neg (by omega), if_pos (by omega)]
        show (if ((0x80 : Nat) ≤ 0x80 + c.toNat / 64 % 64 ∧ 0x80 + c.toNat / 64 % 64 < 0xC0)
            ∧ ((0x80 : Nat) ≤ 0x80 + c.toNat % 64 ∧ 0x80 + c.toNat % 64 < 0xC0) then
          some (Char.ofNat ((0xE0 + c.toNat / 4096 - 0xE0) * 4096 +
            (0x80 + c.toNat / 64 % 64 - 0x80) * 64 + (0x80 + c.toNat % 64 - 0x80)), rest)
        else none) = some (c, rest)
        rw [if_pos (by omega)]
        have harith : (0xE0 + c.toNat / 4096 - 0xE0) * 4096 +
            (0x80 + c.toNat / 64 % 64 - 0x80) * 64 + (0x80 + c.toNat % 64 - 0x80)
            = c.toNat := by omega
        rw [harith, hvalid]
      · rw [show utf8EncChar c
            = [0xF0 + c.toNat / 262144, 0x80 + c.toNat / 4096 % 64,
               0x80 + c.toNat / 64 % 64, 0x80 + c.toNat % 64] from by
          simp [utf8EncChar, h1, h2, h3]]
        show utf8DecodeOne ((0xF0 + c.toNat / 262144) :: (0x80 + c.toNat / 4096 % 64) ::
          (0x80 + c.toNat / 64 % 64) :: (0x80 + c.toNat % 64) :: rest) = _
        simp only [utf8DecodeOne]
        rw [if_neg (by omega), if_neg (by omega), if_neg (by omega), if_neg (by omega),
          if_pos (by omega)]
        show (if ((0x80 : Nat) ≤ 0x80 + c.toNat / 4096 % 64 ∧ 0x80 + c.toNat / 4096 % 64 < 0xC0)
            ∧ ((0x80 : Nat) ≤ 0x80 + c.toNat / 64 % 64 ∧ 0x80 + c.toNat / 64 % 64 < 0xC0)
            ∧ ((0x80 : Nat) ≤ 0x80 + c.toNat % 64 ∧ 0x80 + c.toNat % 64 < 0xC0) then
          some (Char.ofNat ((0xF0 + c.toNat / 262144 - 0xF0) * 262144 +
            (0x80 + c.toNat / 4096 % 64 - 0x80) * 4096 +
            (0x80 + c.toNat / 64 % 64 - 0x80) * 64 + (0x80 + c.toNat % 64 - 0x80)), rest)
        else none) = some (c, rest)
        rw [if_pos (by omega)]
        have harith : (0xF0 + c.toNat / 262144 - 0xF0) * 262144 +
            (0x80 + c.toNat / 4096 % 64 - 0x80) * 4096 +
            (0x80 + c.toNat / 64 % 64 - 0x80) * 64 + (0x80 + c.toNat % 64 - 0x80)
            = c.toNat := by omega
        rw [harith, hvalid]

theorem utf8DecAux_enc : ∀ (cs : List Char) (n : Nat), (utf8Enc cs).length ≤ n →
    utf8DecAux n (utf8Enc cs) = some cs
  | [], n, _ => by cases n <;> rfl
  | c :: cs, n, hn => by
    have hone := utf8DecodeOne_encChar c (utf8Enc cs)
    have hlen1 : 1 ≤ (utf8EncChar c).length :=
      Nat.succ_le_of_lt (List.length_pos.mpr (utf8EncChar_ne_nil c))
    have hflat : utf8Enc (c :: cs) = utf8EncChar c ++ utf8Enc cs := rfl
    have hne : utf8EncChar c ++ utf8Enc cs ≠ [] := by
      intro hh
      have := congrArg List.length hh
      simp only [List.length_append, List.length_nil] at this
      omega
    rw [hflat] at hn ⊢
    obtain ⟨b, tail, heq⟩ := List.exists_cons_of_ne_nil hne
    cases n with
    | zero =>
      exfalso
      rw [heq] at hn
      simp at hn
    | succ n =>
      rw [heq]
      show (match utf8DecodeOne (b :: tail) with
        | none => none
        | some cr => (utf8DecAux n cr.2).map (fun l => cr.1 :: l)) = some (c :: cs)
      rw [← heq, hone]
      show (utf8DecAux n (utf8Enc cs)).map (fun l => c :: l) = some (c :: cs)
      rw [utf8DecAux_enc cs n (by
        rw [heq] at hn
        have hlc := congrArg List.length heq
        simp only [List.length_append, List.length_cons] at hlc hn
        omega)]
      rfl

theorem utf8Dec_utf8Enc (cs : List Char) : utf8Dec (utf8Enc cs) = some cs :=
  utf8DecAux_enc cs (utf8Enc cs).length (Nat.le_refl _)

theorem utf8Bytes_string (s : String) : utf8Dec (utf8Bytes s) = some s.data :=
  utf8Dec_utf8Enc s.data

theorem utf8Enc_bounds (cs : List Char) : ∀ b ∈ utf8Enc cs, b < 256 := by
  intro b hb
  simp only [utf8Enc, List.mem_flatten] at hb
  obtain ⟨x, hx, hbx⟩ := hb
  simp only [List.mem_map] at hx
  obtain ⟨c, _, rfl⟩ := hx
  exact utf8EncChar_bounds c b hbx

theorem utf8Bytes_bounds (s : String) : ∀ b ∈ utf8Bytes s, b < 256 :=
  utf8Enc_bounds s.data

theorem utf8Bytes_inj {s1 s2 : String} (h : utf8Bytes s1 = utf8Bytes s2) : s1 = s2 := by
  have h1 := utf8Bytes_string s1
  rw [h, utf8Bytes_string s2] at h1
  injection h1 with h1
  exact String.ext h1.symm

end Wecom

namespace Wecom

theorem getLast?_replicate_succ (n x : Nat) :
    (List.replicate (n + 1) x).getLast? = some x := by
  rw [List.replicate_succ']
  exact List.getLast?_concat _

theorem padLen_bounds (n : Nat) : 1 ≤ padLen n ∧ padLen n ≤ 16 := by
  rw [padLen]
  omega

theorem padLen_mod (n : Nat) : (n + padLen n) % 16 = 0 := by
  rw [padLen]
  omega

theorem stripPadding_of_padded (full : List Nat) (p : Nat) (hp1 : 1 ≤ p) (hp16 : p ≤ 16) :
    stripPadding (full ++ List.replicate p p) = some full := by
  obtain ⟨k, rfl⟩ : ∃ k, p = k + 1 := ⟨p - 1, by omega⟩
  rw [stripPadding, List.getLast?_append, getLast?_replicate_succ]
  have hlen : (full ++ List.replicate (k + 1) (k + 1)).length = full.length + (k + 1) := by
    simp
  have hsub : (full ++ List.replicate (k + 1) (k + 1)).length - (k + 1) = full.length := by
    rw [hlen]
    omega
  have hdrop : (full ++ List.replicate (k + 1) (k + 1)).drop
      ((full ++ List.replicate (k + 1) (k + 1)).length - (k + 1))
      = List.replicate (k + 1) (k + 1) := by
    rw [hsub]
    exact List.drop_left _ _
  have htake : (full ++ List.replicate (k + 1) (k + 1)).take
      ((full ++ List.replicate (k + 1) (k + 1)).length - (k + 1))
      = full := by
    rw [hsub]
    exact List.take_left _ _
  show (if 1 ≤ k + 1 ∧ k + 1 ≤ 16 ∧ ((full ++ List.replicate (k + 1) (k + 1)).drop
      ((full ++ List.replicate (k + 1) (k + 1)).length - (k + 1))).all (· = k + 1) then
    some ((full ++ List.replicate (k + 1) (k + 1)).take
      ((full ++ List.replicate (k + 1) (k + 1)).length - (k + 1)))
  else none) = some full
  rw [hdrop, htake, if_pos ⟨hp1, hp16, by simp [List.all_eq_true, List.mem_replicate]⟩]

theorem lenBytes4_decode (n : Nat) (h : n < 2 ^ 32) :
    decodeLen4 (n / 2 ^ 24 % 256) (n / 2 ^ 16 % 256) (n / 2 ^ 8 % 256) (n % 256) = n := by
  rw [decodeLen4]
  have h24 : (2 : Nat) ^ 24 = 16777216 := by norm_num
  have h16 : (2 : Nat) ^ 16 = 65536 := by norm_num
  have h8 : (2 : Nat) ^ 8 = 256 := by norm_num
  have h32 : (2 : Nat) ^ 32 = 4294967296 := by norm_num
  rw [h24, h16, h8] at *
  rw [h32] at h
  omega

theorem parseContent_of_built (pre msg recv : List Nat) (hpre : pre.length = 16)
    (hmsg : msg.length < 2 ^ 32) :
    parseContent recv (pre ++ lenBytes4 msg.length ++ msg ++ recv) = some msg := by
  have hassoc : pre ++ lenBytes4 msg.length ++ msg ++ recv
      = pre ++ ((msg.length / 2 ^ 24 % 256) :: (msg.length / 2 ^ 16 % 256) ::
        (msg.length / 2 ^ 8 % 256) :: (msg.length % 256) :: (msg ++ recv)) := by
    simp [lenBytes4, List.append_assoc]
  rw [parseContent, hassoc, List.drop_left' hpre]
  show (if ((msg ++ recv).take (decodeLen4 (msg.length / 2 ^ 24 % 256)
        (msg.length / 2 ^ 16 % 256) (msg.length / 2 ^ 8 % 256) (msg.length % 256))).length
        = decodeLen4 (msg.length / 2 ^ 24 % 256) (msg.length / 2 ^ 16 % 256)
          (msg.length / 2 ^ 8 % 256) (msg.length % 256)
      ∧ (msg ++ recv).drop (decodeLen4 (msg.length / 2 ^ 24 % 256)
        (msg.length / 2 ^ 16 % 256) (msg.length / 2 ^ 8 % 256) (msg.length % 256)) = recv then
    some ((msg ++ recv).take (decodeLen4 (msg.length / 2 ^ 24 % 256)
      (msg.length / 2 ^ 16 % 256) (msg.length / 2 ^ 8 % 256) (msg.length % 256)))
  else none) = some msg
  rw [lenBytes4_decode msg.length hmsg, List.take_left, List.drop_left]
  simp

theorem cbcEnc_length (E : List Nat → List Nat) :
    ∀ (prev : List Nat) (bs : List (List Nat)), (cbcEnc E prev bs).length = bs.length
  | _, [] => rfl
  | prev, b :: rest => by
    show (cbcEnc E (E (xorBytes prev b)) rest).length + 1 = rest.length + 1
    rw [cbcEnc_length E _ rest]

theorem flatten_blocks_length : ∀ bs : List (List Nat), (∀ b ∈ bs, b.length = 16) →
    bs.flatten.length = 16 * bs.length
  | [], _ => rfl
  | b :: rest, h => by
    rw [List.flatten_cons, List.length_append, h b (by simp),
      flatten_blocks_length rest (fun b' h' => h b' (by simp [h']))]
    simp [List.length_cons]
    ring

end Wecom

namespace Wecom

/-- Reduction of decrypt-of-encrypt to the receiver-id check: the base64,
CBC and padding layers always invert, leaving the parse of
`prefix ‖ length ‖ message ‖ receiver` against the expected receiver id. -/
theorem decrypt_of_encrypt_reduces
    (E D : List Nat → List Nat → List Nat)
    (hED : ∀ k x, x.length = 16 → D k (E k x) = x)
    (hElen : ∀ k x, x.length = 16 → (E k x).length = 16)
    (hEbound : ∀ k x, x.length = 16 → (∀ v ∈ x, v < 256) → ∀ v ∈ E k x, v < 256)
    (key recv recvExp : String) (kb : List Nat)
    (hkey : decodeEncodingKey key = some kb) (hkb : 16 ≤ kb.length)
    (prefix16 : List Nat) (hpre : prefix16.length = 16)
    (hpreB : ∀ v ∈ prefix16, v < 256) (p : String) :
    (encryptWecomPlaintext E key recv prefix16 p).bind
      (decryptWecomEncrypted D key recvExp)
      = (parseContent (utf8Bytes recvExp)
          (prefix16 ++ lenBytes4 (utf8Bytes p).length ++ utf8Bytes p ++ utf8Bytes recv)).bind
        (fun msgBytes => (utf8Dec msgBytes).map (fun cs => String.mk cs)) := by
  have hkbB : ∀ v ∈ kb, v < 256 := b64_decode_bounds _ kb hkey
  have haesL : (List.take 16 kb).length = 16 := by
    rw [List.length_take]
    omega
  have haesB : ∀ v ∈ List.take 16 kb, v < 256 := fun v hv => hkbB v (List.mem_of_mem_take hv)
  simp only [encryptWecomPlaintext, hkey, Option.some_bind]
  simp only [decryptWecomEncrypted, hkey]
  set FULL := prefix16 ++ lenBytes4 (utf8Bytes p).length ++ utf8Bytes p ++ utf8Bytes recv
    with hFULL
  set PL := padLen FULL.length with hPL
  set PADDED := FULL ++ List.replicate PL PL with hPADDED
  set CIPHER := (cbcEnc (E (List.take 16 kb)) (List.take 16 kb) (chunk16 PADDED)).flatten
    with hCIPHER
  have hfullB : ∀ v ∈ FULL, v < 256 := by
    rw [hFULL]
    intro v hv
    simp only [List.mem_append] at hv
    rcases hv with ((hv | hv) | hv) | hv
    · exact hpreB v hv
    · simp [lenBytes4] at hv
      rcases hv with hv | hv | hv | hv <;> omega
    · exact utf8Bytes_bounds p v hv
    · exact utf8Bytes_bounds recv v hv
  have hplb := padLen_bounds FULL.length
  have hpaddedB : ∀ v ∈ PADDED, v < 256 := by
    rw [hPADDED]
    intro v hv
    simp only [List.mem_append] at hv
    rcases hv with hv | hv
    · exact hfullB v hv
    · rw [List.mem_replicate] at hv
      rw [hPL] at hv
      omega
  have hpaddedMod : PADDED.length % 16 = 0 := by
    rw [hPADDED]
    simp only [List.length_append, List.length_replicate]
    rw [hPL]
    exact padLen_mod FULL.length
  have hpadded_ne : PADDED ≠ [] := by
    rw [hPADDED]
    intro hh
    have hl := congrArg List.length hh
    simp only [List.length_append, List.length_replicate, List.length_nil] at hl
    rw [hPL] at hl
    have := padLen_bounds FULL.length
    omega
  have hblocksLen := chunk16_block_lengths PADDED hpaddedMod
  have hblocksB : ∀ b ∈ chunk16 PADDED, ∀ v ∈ b, v < 256 := by
    intro b hb v hv
    refine hpaddedB v ?_
    rw [← chunk16_flatten PADDED]
    exact List.mem_flatten.mpr ⟨b, hb, hv⟩
  have hcbOK := cbcEnc_blocks_ok (E (List.take 16 kb)) (hElen (List.take 16 kb))
    (hEbound (List.take 16 kb)) (List.take 16 kb) (chunk16 PADDED) haesL haesB
    (fun b hb => ⟨hblocksLen b hb, hblocksB b hb⟩)
  have hcipherB : ∀ v ∈ CIPHER, v < 256 := by
    rw [hCIPHER]
    intro v hv
    obtain ⟨b, hb, hvb⟩ := List.mem_flatten.mp hv
    exact (hcbOK b hb).2 v hvb
  have hcipherLen : CIPHER.length = 16 * (chunk16 PADDED).length := by
    rw [hCIPHER, flatten_blocks_length _ (fun b hb => (hcbOK b hb).1), cbcEnc_length]
  have hmod : CIPHER.length % 16 = 0 := by
    rw [hcipherLen]
    omega
  have hblocks_ne : chunk16 PADDED ≠ [] := by
    rw [chunk16_eq _ hpadded_ne]
    simp
  have hne : CIPHER ≠ [] := by
    intro hh
    have h0 := congrArg List.length hh
    rw [hcipherLen] at h0
    simp only [List.length_nil] at h0
    exact hblocks_ne (List.length_eq_zero.mp (by omega))
  rw [b64_roundtrip CIPHER hcipherB, Option.some_bind]
  rw [if_pos ⟨hmod, hne⟩]
  have hchunkC : chunk16 CIPHER
      = cbcEnc (E (List.take 16 kb)) (List.take 16 kb) (chunk16 PADDED) := by
    rw [hCIPHER]
    exact chunk16_of_blocks _ (fun b hb => (hcbOK b hb).1)
  rw [hchunkC]
  rw [cbcDec_cbcEnc (E (List.take 16 kb)) (D (List.take 16 kb)) (hED (List.take 16 kb))
    (hElen (List.take 16 kb)) (List.take 16 kb) (chunk16 PADDED) haesL hblocksLen]
  rw [chunk16_flatten PADDED]
  rw [hPADDED, hPL]
  rw [stripPadding_of_padded FULL (padLen FULL.length) (padLen_bounds _).1
    (padLen_bounds _).2, Option.some_bind]

/-- C1: for every plaintext string, valid encoding key and receiver id,
decrypting the encryption returns exactly the original plaintext —
quantified over every keyed block cipher `E` with inverse `D` operating on
16-byte blocks (the spec's cipher is such a cipher), every random 16-byte
prefix, and every plaintext whose UTF-8 form fits the 4-byte length field. -/
theorem crypto_roundtrip
    (E D : List Nat → List Nat → List Nat)
    (hED : ∀ k x, x.length = 16 → D k (E k x) = x)
    (hElen : ∀ k x, x.length = 16 → (E k x).length = 16)
    (hEbound : ∀ k x, x.length = 16 → (∀ v ∈ x, v < 256) → ∀ v ∈ E k x, v < 256)
    (key recv : String) (kb : List Nat)
    (hkey : decodeEncodingKey key = some kb) (hkb : 16 ≤ kb.length)
    (prefix16 : List Nat) (hpre : prefix16.length = 16)
    (hpreB : ∀ v ∈ prefix16, v < 256)
    (p : String) (hplen : (utf8Bytes p).length < 2 ^ 32) :
    (encryptWecomPlaintext E key recv prefix16 p).bind (decryptWecomEncrypted D key recv)
      = some p := by
  rw [decrypt_of_encrypt_reduces E D hED hElen hEbound key recv recv kb hkey hkb
    prefix16 hpre hpreB p]
  rw [parseContent_of_built prefix16 (utf8Bytes p) (utf8Bytes recv) hpre hplen,
    Option.some_bind]
  rw [utf8Bytes_string p, Option.map_some']

end Wecom

/-- Witness for C1 with the identity block cipher, the test suite's
43-character encoding key and receiver id, a zero prefix and plaintext
`"hi"`. -/
theorem crypto_roundtrip_witness :
    (Wecom.encryptWecomPlaintext Wecom.idCipher
      "abcdefghijklmnopqrstuvwxyz0123456789ABCDEFG" "corp123"
      (List.replicate 16 0) "hi").bind
      (Wecom.decryptWecomEncrypted Wecom.idCipher
        "abcdefghijklmnopqrstuvwxyz0123456789ABCDEFG" "corp123") = some "hi" :=
  Wecom.crypto_roundtrip Wecom.idCipher Wecom.idCipher
    (fun _ _ _ => rfl) (fun _ _ h => h) (fun _ _ _ hb => hb)
    "abcdefghijklmnopqrstuvwxyz0123456789ABCDEFG" "corp123" _ rfl (by decide)
    (List.replicate 16 0) (by decide) (by decide) "hi" (by decide)

namespace Wecom

theorem parseContent_wrong_recv (pre msg recv recvExp : List Nat) (hpre : pre.length = 16)
    (hmsg : msg.length < 2 ^ 32) (hne : recv ≠ recvExp) :
    parseContent recvExp (pre ++ lenBytes4 msg.length ++ msg ++ recv) = none := by
  have hassoc : pre ++ lenBytes4 msg.length ++ msg ++ recv
      = pre ++ ((msg.length / 2 ^ 24 % 256) :: (msg.length / 2 ^ 16 % 256) ::
        (msg.length / 2 ^ 8 % 256) :: (msg.length % 256) :: (msg ++ recv)) := by
    simp [lenBytes4, List.append_assoc]
  rw [parseContent, hassoc, List.drop_left' hpre]
  show (if ((msg ++ recv).take (decodeLen4 (msg.length / 2 ^ 24 % 256)
        (msg.length / 2 ^ 16 % 256) (msg.length / 2 ^ 8 % 256) (msg.length % 256))).length
        = decodeLen4 (msg.length / 2 ^ 24 % 256) (msg.length / 2 ^ 16 % 256)
          (msg.length / 2 ^ 8 % 256) (msg.length % 256)
      ∧ (msg ++ recv).drop (decodeLen4 (msg.length / 2 ^ 24 % 256)
        (msg.length / 2 ^ 16 % 256) (msg.length / 2 ^ 8 % 256) (msg.length % 256)) = recvExp
      then
    some ((msg ++ recv).take (decodeLen4 (msg.length / 2 ^ 24 % 256)
      (msg.length / 2 ^ 16 % 256) (msg.length / 2 ^ 8 % 256) (msg.length % 256)))
  else none) = none
  rw [lenBytes4_decode msg.length hmsg, List.take_left, List.drop_left]
  rw [if_neg]
  rintro ⟨-, h2⟩
  exact hne h2

end Wecom

/-- Counterexample to C2: flipping one ciphertext byte does not always make
decrypt fail.  With the identity block cipher (a legal instance of the
modelled cipher), flipping byte 5 of the ciphertext of `"hello!"` garbles
only the discarded random prefix and flips one bit of the second plaintext
block, so decrypt succeeds and silently returns the altered plaintext
`"hdllo!"`. -/
theorem decrypt_byte_flip_not_detected :
    Wecom.decryptWecomEncrypted Wecom.idCipher
      "abcdefghijklmnopqrstuvwxyz0123456789ABCDEFG" "r"
      (Wecom.flipCipherByte ((Wecom.encryptWecomPlaintext Wecom.idCipher
        "abcdefghijklmnopqrstuvwxyz0123456789ABCDEFG" "r"
        (List.replicate 16 0) "hello!").getD "") 5) = some "hdllo!"
    ∧ Wecom.decryptWecomEncrypted Wecom.idCipher
        "abcdefghijklmnopqrstuvwxyz0123456789ABCDEFG" "r"
        ((Wecom.encryptWecomPlaintext Wecom.idCipher
          "abcdefghijklmnopqrstuvwxyz0123456789ABCDEFG" "r"
          (List.replicate 16 0) "hello!").getD "") = some "hello!"
    ∧ ("hdllo!" : String) ≠ "hello!" := by
  refine ⟨?_, ?_, ?_⟩ <;> decide

/-- C2 (amended): decrypt verifies the padding, the declared length field
and the trailing receiver id, and returns output only when every check
passes (never partial output); calling decrypt with a wrong receiver id
always fails; but flipping a single ciphertext byte is not always detected
(see the counterexample): a flip confined to the first ciphertext block
garbles only the discarded random prefix and alters the recovered content,
so decrypt can succeed with altered output. -/
theorem decrypt_integrity_checks :
    (∀ E D : List Nat → List Nat → List Nat,
      (∀ k x, x.length = 16 → D k (E k x) = x) →
      (∀ k x, x.length = 16 → (E k x).length = 16) →
      (∀ k x, x.length = 16 → (∀ v ∈ x, v < 256) → ∀ v ∈ E k x, v < 256) →
      ∀ (key recv recvExp : String) (kb : List Nat),
        Wecom.decodeEncodingKey key = some kb → 16 ≤ kb.length →
        ∀ prefix16 : List Nat, prefix16.length = 16 → (∀ v ∈ prefix16, v < 256) →
        ∀ p : String, (Wecom.utf8Bytes p).length < 2 ^ 32 → recv ≠ recvExp →
          (Wecom.encryptWecomPlaintext E key recv prefix16 p).bind
            (Wecom.decryptWecomEncrypted D key recvExp) = none)
    ∧ (∀ (D : List Nat → List Nat → List Nat) (key recv ct s : String),
        Wecom.decryptWecomEncrypted D key recv ct = some s →
        ∃ kb cipher content msgBytes,
          Wecom.decodeEncodingKey key = some kb
          ∧ Wecom.b64DecodeBytes ct.data = some cipher
          ∧ cipher.length % 16 = 0 ∧ cipher ≠ []
          ∧ Wecom.stripPadding
              (Wecom.cbcDec (D (kb.take 16)) (kb.take 16) (Wecom.chunk16 cipher)).flatten
              = some content
          ∧ Wecom.parseContent (Wecom.utf8Bytes recv) content = some msgBytes
          ∧ (Wecom.utf8Dec msgBytes).map (fun cs => String.mk cs) = some s) := by
  constructor
  · intro E D hED hElen hEbound key recv recvExp kb hkey hkb prefix16 hpre hpreB p hplen hne
    rw [Wecom.decrypt_of_encrypt_reduces E D hED hElen hEbound key recv recvExp kb hkey hkb
      prefix16 hpre hpreB p]
    rw [Wecom.parseContent_wrong_recv prefix16 (Wecom.utf8Bytes p) (Wecom.utf8Bytes recv)
      (Wecom.utf8Bytes recvExp) hpre hplen (fun hh => hne (Wecom.utf8Bytes_inj hh))]
    rfl
  · intro D key recv ct s h
    cases hk : Wecom.decodeEncodingKey key with
    | none =>
      simp only [Wecom.decryptWecomEncrypted, hk] at h
      exact Option.noConfusion h
    | some kb =>
      simp only [Wecom.decryptWecomEncrypted, hk] at h
      cases hb : Wecom.b64DecodeBytes ct.data with
      | none =>
        rw [hb] at h
        simp at h
      | some cipher =>
        rw [hb, Option.some_bind] at h
        by_cases hcc : cipher.length % 16 = 0 ∧ cipher ≠ []
        · rw [if_pos hcc] at h
          cases hsp : Wecom.stripPadding
              (Wecom.cbcDec (D (kb.take 16)) (kb.take 16) (Wecom.chunk16 cipher)).flatten with
          | none =>
            rw [hsp] at h
            simp at h
          | some content =>
            rw [hsp, Option.some_bind] at h
            cases hpc : Wecom.parseContent (Wecom.utf8Bytes recv) content with
            | none =>
              rw [hpc] at h
              simp at h
            | some msgBytes =>
              rw [hpc, Option.some_bind] at h
              exact ⟨kb, cipher, content, msgBytes, rfl, rfl, hcc.1, hcc.2, hsp, hpc, h⟩
        · rw [if_neg hcc] at h
          simp at h

/-- Witness for the amended C2: a wrong receiver id makes decrypt fail at a
concrete input. -/
theorem decrypt_integrity_checks_witness :
    (Wecom.encryptWecomPlaintext Wecom.idCipher
      "abcdefghijklmnopqrstuvwxyz0123456789ABCDEFG" "r"
      (List.replicate 16 0) "hi").bind
      (Wecom.decryptWecomEncrypted Wecom.idCipher
        "abcdefghijklmnopqrstuvwxyz0123456789ABCDEFG" "x") = none :=
  decrypt_integrity_checks.1 Wecom.idCipher Wecom.idCipher
    (fun _ _ _ => rfl) (fun _ _ h => h) (fun _ _ _ hb => hb)
    "abcdefghijklmnopqrstuvwxyz0123456789ABCDEFG" "r" "x" _ rfl (by decide)
    (List.replicate 16 0) (by decide) (by decide) "hi" (by decide) (by decide)

/-! ## C3 — signature lemmas -/

namespace WecomSig

theorem nibbleChar_inj : ∀ i < 16, ∀ j < 16, nibbleChar i = nibbleChar j → i = j := by
  decide

theorem hexChars_inj : ∀ (a b : List Nat), (∀ v ∈ a, v < 256) → (∀ v ∈ b, v < 256) →
    (a.map byteHex).flatten = (b.map byteHex).flatten → a = b
  | [], [], _, _, _ => rfl
  | [], y :: ys, _, _, h => by simp [byteHex] at h
  | x :: xs, [], _, _, h => by simp [byteHex] at h
  | x :: xs, y :: ys, ha, hb, h => by
    simp only [List.map_cons, List.flatten_cons, byteHex, List.cons_append,
      List.nil_append] at h
    injection h with h1 h
    injection h with h2 h3
    have hx : x < 256 := ha x (by simp)
    have hy : y < 256 := hb y (by simp)
    have e1 : x / 16 = y / 16 := nibbleChar_inj _ (by omega) _ (by omega) h1
    have e2 : x % 16 = y % 16 := nibbleChar_inj _ (by omega) _ (by omega) h2
    have hxy : x = y := by omega
    rw [hxy, hexChars_inj xs ys (fun v hv => ha v (by simp [hv]))
      (fun v hv => hb v (by simp [hv])) h3]

theorem hexEncode_inj (a b : List Nat) (ha : ∀ v ∈ a, v < 256) (hb : ∀ v ∈ b, v < 256)
    (h : hexEncode a = hexEncode b) : a = b := by
  refine hexChars_inj a b ha hb ?_
  have := congrArg String.data h
  exact this

theorem concatSorted_count (xs : List String) (c : Char) :
    (concatSorted xs).data.count c = (xs.map (fun s => s.data.count c)).sum := by
  rw [concatSorted, String.data_join, List.count_flatten, List.map_map]
  have hperm : (xs.mergeSort (fun a b => decide (a ≤ b))).Perm xs :=
    List.mergeSort_perm xs _
  have := (hperm.map (fun s => s.data.count c)).sum_eq
  simpa using this

theorem count_mutate (l : List Char) (i : Nat) (c d : Char) (hi : l[i]? = some d)
    (hne : c ≠ d) : (l.set i c).count c = l.count c + 1 := by
  have hlen : i < l.length := by
    by_contra hcon
    rw [List.getElem?_eq_none (by omega)] at hi
    exact Option.noConfusion hi
  rw [List.count_set c c l i hlen]
  have hgl : l[i] = d := by
    have := List.getElem?_eq_getElem hlen
    rw [this] at hi
    injection hi
  rw [hgl]
  rw [show (d == c) = false from beq_eq_false_iff_ne.mpr (fun hh => hne hh.symm)]
  simp

theorem sum_set_nat : ∀ (l : List Nat) (k : Nat) (v : Nat) (hv : k < l.length),
    (l.set k v).sum + l.get ⟨k, hv⟩ = l.sum + v
  | x :: xs, 0, v, _ => by
    simp [List.set]
    omega
  | x :: xs, k + 1, v, hv => by
    have := sum_set_nat xs k v (by simpa using hv)
    simp only [List.set, List.sum_cons, List.get]
    omega

theorem signList_mutate_ne (digest : String → List Nat)
    (hInj : Function.Injective digest) (hB : ∀ t, ∀ b ∈ digest t, b < 256)
    (xs : List String) (k i : Nat) (s : String) (c d : Char)
    (hk : xs[k]? = some s) (hd : s.data[i]? = some d) (hne : c ≠ d) :
    signList digest (xs.set k (mutateStr s i c)) ≠ signList digest xs := by
  intro heq
  have hdig : digest (concatSorted (xs.set k (mutateStr s i c)))
      = digest (concatSorted xs) := hexEncode_inj _ _ (hB _) (hB _) heq
  have hcs : concatSorted (xs.set k (mutateStr s i c)) = concatSorted xs := hInj hdig
  have hcount := congrArg (fun t => t.data.count c) hcs
  simp only [concatSorted_count] at hcount
  rw [List.map_set] at hcount
  have hklen : k < xs.length := by
    by_contra hcon
    rw [List.getElem?_eq_none (by omega)] at hk
    exact Option.noConfusion hk
  have hklen' : k < (xs.map (fun s => s.data.count c)).length := by simpa using hklen
  have hsum := sum_set_nat (xs.map (fun s => s.data.count c)) k
    ((mutateStr s i c).data.count c) hklen'
  have hget : (xs.map (fun s => s.data.count c)).get ⟨k, hklen'⟩ = s.data.count c := by
    have h1 : (xs.map (fun s => s.data.count c))[k]? = some (s.data.count c) := by
      rw [List.getElem?_map, hk]
      rfl
    have h2 : some ((xs.map (fun s => s.data.count c))[k]) = some (s.data.count c) := by
      rw [← List.getElem?_eq_getElem hklen']
      exact h1
    simpa using Option.some.inj h2
  have hmut : (mutateStr s i c).data.count c = s.data.count c + 1 := by
    rw [show (mutateStr s i c).data = s.data.set i c from rfl]
    exact count_mutate s.data i c d hd hne
  rw [hcount, hget, hmut] at hsum
  omega

end WecomSig

/-- C3: the signature is the hex encoding of the fixed digest of the
lexicographically sorted concatenation of the four inputs (and is a pure
function of them); `verify` accepts exactly the signature `sign` produces;
and for a collision-free digest with byte output, `verify` rejects any
single-character mutation of any of the four inputs. -/
theorem wecom_signature_spec :
    (∀ (digest : String → List Nat) (token ts nonce enc : String),
      WecomSig.computeWecomMsgSignature digest token ts nonce enc
        = WecomSig.hexEncode (digest (WecomSig.concatSorted [token, ts, nonce, enc])))
    ∧ (∀ (digest : String → List Nat) (token ts nonce enc given : String),
      WecomSig.verifyWecomMsgSignature digest token ts nonce enc given = true
        ↔ given = WecomSig.computeWecomMsgSignature digest token ts nonce enc)
    ∧ (∀ digest : String → List Nat, Function.Injective digest →
      (∀ t, ∀ b ∈ digest t, b < 256) →
      ∀ (token ts nonce enc : String) (i : Nat) (c d : Char),
        (token.data[i]? = some d → c ≠ d →
          WecomSig.verifyWecomMsgSignature digest (WecomSig.mutateStr token i c) ts nonce enc
            (WecomSig.computeWecomMsgSignature digest token ts nonce enc) = false)
        ∧ (ts.data[i]? = some d → c ≠ d →
          WecomSig.verifyWecomMsgSignature digest token (WecomSig.mutateStr ts i c) nonce enc
            (WecomSig.computeWecomMsgSignature digest token ts nonce enc) = false)
        ∧ (nonce.data[i]? = some d → c ≠ d →
          WecomSig.verifyWecomMsgSignature digest token ts (WecomSig.mutateStr nonce i c) enc
            (WecomSig.computeWecomMsgSignature digest token ts nonce enc) = false)
        ∧ (enc.data[i]? = some d → c ≠ d →
          WecomSig.verifyWecomMsgSignature digest token ts nonce (WecomSig.mutateStr enc i c)
            (WecomSig.computeWecomMsgSignature digest token ts nonce enc) = false)) := by
  refine ⟨fun digest token ts nonce enc => rfl, ?_, ?_⟩
  · intro digest token ts nonce enc given
    exact beq_iff_eq
  · intro digest hInj hB token ts nonce enc i c d
    refine ⟨?_, ?_, ?_, ?_⟩
    · intro hd hne
      apply beq_eq_false_iff_ne.mpr
      intro heq
      exact WecomSig.signList_mutate_ne digest hInj hB [token, ts, nonce, enc] 0 i
        token c d rfl hd hne heq.symm
    · intro hd hne
      apply beq_eq_false_iff_ne.mpr
      intro heq
      exact WecomSig.signList_mutate_ne digest hInj hB [token, ts, nonce, enc] 1 i
        ts c d rfl hd hne heq.symm
    · intro hd hne
      apply beq_eq_false_iff_ne.mpr
      intro heq
      exact WecomSig.signList_mutate_ne digest hInj hB [token, ts, nonce, enc] 2 i
        nonce c d rfl hd hne heq.symm
    · intro hd hne
      apply beq_eq_false_iff_ne.mpr
      intro heq
      exact WecomSig.signList_mutate_ne digest hInj hB [token, ts, nonce, enc] 3 i
        enc c d rfl hd hne heq.symm

/-- Witness for C3: with the (injective) UTF-8 encoding as digest, a
one-character mutation of the token is rejected. -/
theorem wecom_signature_spec_witness :
    WecomSig.verifyWecomMsgSignature Wecom.utf8Bytes
      (WecomSig.mutateStr "token123" 0 'x') "1700001001" "n1" "payload"
      (WecomSig.computeWecomMsgSignature Wecom.utf8Bytes
        "token123" "1700001001" "n1" "payload") = false :=
  ((wecom_signature_spec.2.2 Wecom.utf8Bytes (fun _ _ h => Wecom.utf8Bytes_inj h)
    (fun t => Wecom.utf8Bytes_bounds t) "token123" "1700001001" "n1" "payload"
    0 'x' 't').1 (by decide) (by decide))

set_option maxRecDepth 100000

/-- C7: in the concrete fallback scenario — account with token "token123"
and the 43-character key — the signed inbound encrypted text message passes
verification; handling it while the reply is pending yields an encrypted
response whose decrypted payload is the stream placeholder (msgtype
"stream", non-empty stream id); the later `sendMedia` for the same
account/target succeeds with a messageId containing "stream:"; and the
subsequent stream poll returns a stream payload whose content contains the
literal markdown link to the media URL. -/
theorem wecom_stream_fallback_scenario :
    Scenario.KEY.length = 43
    ∧ WecomSig.verifyWecomMsgSignature Wecom.utf8Bytes "token123" "1700001001" "n1"
        Scenario.INBOUND_CT
        (WecomSig.computeWecomMsgSignature Wecom.utf8Bytes "token123" "1700001001" "n1"
          Scenario.INBOUND_CT) = true
    ∧ Scenario.step1.2.bind
        (Wecom.decryptWecomEncrypted Wecom.idCipher Scenario.KEY Scenario.RECV)
        = some (Dispatcher.renderStreamOpen 0)
    ∧ Dispatcher.containsSub (Dispatcher.renderStreamOpen 0) "\"msgtype\":\"stream\"" = true
    ∧ Dispatcher.containsSub (Dispatcher.renderStreamOpen 0)
        ("\"id\":\"" ++ Dispatcher.streamIdString 0 ++ "\"") = true
    ∧ Dispatcher.streamIdString 0 ≠ ""
    ∧ Scenario.step2.2.1 = true
    ∧ Dispatcher.containsSub Scenario.step2.2.2 "stream:" = true
    ∧ Scenario.step3.2.bind
        (Wecom.decryptWecomEncrypted Wecom.idCipher Scenario.KEY Scenario.RECV)
        = some (Dispatcher.renderStreamContent
            ("附件如下\n[下载文件](" ++ Scenario.MEDIA_URL ++ ")") false)
    ∧ Dispatcher.containsSub
        (Dispatcher.renderStreamContent
          ("附件如下\n[下载文件](" ++ Scenario.MEDIA_URL ++ ")") false)
        ("[下载文件](" ++ Scenario.MEDIA_URL ++ ")") = true := by
  refine ⟨by decide, beq_self_eq_true _, ?_⟩
  decide
